import Mathlib

/-!
Verification development for the `bespon` escape/unescape engine
(`src/bespon/escape.py`) and grammar table builder (`src/bespon/grammar.py`).

Python `str` values are modelled as `List Nat` of Unicode code points
(each in `0x00 .. 0x10FFFF`), and Python `bytes` values as `List Nat` of
byte values; this matches CPython 3 wide-build semantics, where `chr`/`ord`
work directly on code points.  Numeric character codes are written in
decimal throughout (92 = backslash, 39 = single quote, 34 = double quote,
10 = LF, 120 = `x`, 117 = `u`, 85 = `U`, 123/125 = curly braces).
-/

deriving instance DecidableEq for Except

namespace BesponSpec

/-- Python string type: a list of Unicode code points. -/
abbrev PyStr := List Nat

/-- Helper building a `PyStr` from a Lean string literal (used only for
readable statements; the characters of a Lean literal are code points). -/
def pstr (s : String) : PyStr := s.toList.map Char.toNat

/-! ## Hex digit formatting, modelling Python `'{0:02x}'`-style formatting

The source formats escape payloads with `'\\x{0:02x}'`, `'\\u{0:04x}'`,
`'\\U{0:08x}'` and `'\\u{{{0:0x}}}'` (grammar: `escape.py` lines 121-164).
Python width-format pads with zeros to a minimum width and never truncates;
`0x` with no width is the bare minimal-length lower-case hex rendering. -/

/-- Character code of a single lower-case hex digit (`0-9a-f`). -/
def hexDigitChar (d : Nat) : Nat := if d < 10 then 48 + d else 87 + d

/-- Minimal-length lower-case hex rendering of `n`, most significant digit
first, via explicit fuel (the fuel `n+1` always suffices since `n / 16 < n`
for `n ≥ 16`).  Models Python `'{0:x}'.format(n)`. -/
def minHexAux : Nat → Nat → List Nat
  | 0, n => [hexDigitChar (n % 16)]
  | fuel + 1, n => if n < 16 then [hexDigitChar n] else minHexAux fuel (n / 16) ++ [hexDigitChar (n % 16)]

/-- Minimal-length lower-case hex rendering of `n` (`'{0:x}'`). -/
def minHex (n : Nat) : List Nat := minHexAux n n

/-- Zero-padded lower-case hex rendering to minimum width `w`
(`'{0:0Nx}'.format(n)`: pads with zeros, never truncates). -/
def padHex (w n : Nat) : List Nat := List.replicate (w - (minHex n).length) 48 ++ minHex n

/-- Value of a hex-digit character, accepting both cases (as Python
`int(s, 16)` does). -/
def hexDigitVal (c : Nat) : Option Nat :=
  if 48 ≤ c ∧ c ≤ 57 then some (c - 48)
  else if 97 ≤ c ∧ c ≤ 102 then some (c - 87)
  else if 65 ≤ c ∧ c ≤ 70 then some (c - 55)
  else none

/-- Numeric value of a list of hex-digit characters, most significant first. -/
def hexListVal (l : List Nat) : Nat := l.foldl (fun a c => 16 * a + (hexDigitVal c).getD 0) 0

/-- Lower-case hex digit class, `[0-9a-f]` (grammar `lower_hex_digit`). -/
def lowHexD (c : Nat) : Bool := (48 ≤ c && c ≤ 57) || (97 ≤ c && c ≤ 102)

/-- Upper-case hex digit class, `[0-9A-F]` (grammar `upper_hex_digit`). -/
def upHexD (c : Nat) : Bool := (48 ≤ c && c ≤ 57) || (65 ≤ c && c ≤ 70)

/-- Python whitespace characters stripped by `int(s, 16)` around the digits. -/
def isPySpace (c : Nat) : Bool :=
  c == 32 || c == 9 || c == 10 || c == 13 || c == 11 || c == 12

/-- Model of Python `int(s, 16)` on the token bodies this code ever passes to
it: surrounding whitespace is stripped, then a non-empty run of hex digits
(either case) is converted; anything else raises `ValueError` (`none`).
The bodies reaching `int` here never contain signs or `_` separators, so
those Python lexical extras are irrelevant on this domain. -/
def pyIntSixteen (l : List Nat) : Option Nat :=
  let core := ((l.dropWhile isPySpace).reverse.dropWhile isPySpace).reverse
  if core ≠ [] ∧ core.all (fun c => (hexDigitVal c).isSome) then some (hexListVal core)
  else none

/-- Model of Python `s.strip('{}')`: remove leading and trailing curly-brace
characters. -/
def pyStripCurly (l : List Nat) : List Nat :=
  (((l.dropWhile fun c => c == 123 || c == 125).reverse.dropWhile
      fun c => c == 123 || c == 125)).reverse

/-- Model of Python `chr(n)` on a Python 3 wide build: valid for all
`n ≤ 0x10FFFF` (lone surrogates included), `ValueError` (`none`) above. -/
def pyChr (n : Nat) : Option PyStr := if n ≤ 1114111 then some [n] else none

/-! ## Short backslash escape tables (grammar.py lines 282-294)

`SHORT_BACKSLASH_UNESCAPES` maps the eleven two-character escapes to their
one-character meanings; `SHORT_BACKSLASH_ESCAPES` is its inverse. -/

/-- Dictionary `SHORT_BACKSLASH_UNESCAPES`: two-character escape token to
decoded code point. -/
def shortUnescape (t : PyStr) : Option Nat :=
  match t with
  | [92, c] =>
      match c with
      | 92 => some 92      -- \\  ->  backslash
      | 39 => some 39      -- \'  ->  single quote
      | 34 => some 34      -- \"  ->  double quote
      | 97 => some 7       -- \a  ->  BEL
      | 98 => some 8       -- \b  ->  BS
      | 101 => some 27     -- \e  ->  ESC
      | 102 => some 12     -- \f  ->  FF
      | 110 => some 10     -- \n  ->  LF
      | 114 => some 13     -- \r  ->  CR
      | 116 => some 9      -- \t  ->  TAB
      | 118 => some 11     -- \v  ->  VT
      | _ => none
  | _ => none

/-- Dictionary `SHORT_BACKSLASH_ESCAPES` (the inverse mapping): code point to
its short escape token. -/
def shortEscape (c : Nat) : Option PyStr :=
  match c with
  | 92 => some [92, 92]
  | 39 => some [92, 39]
  | 34 => some [92, 34]
  | 7 => some [92, 97]
  | 8 => some [92, 98]
  | 27 => some [92, 101]
  | 12 => some [92, 102]
  | 10 => some [92, 110]
  | 13 => some [92, 114]
  | 9 => some [92, 116]
  | 11 => some [92, 118]
  | _ => none

/-! ## Escape side (`class Escape`, escape.py lines 50-211) -/

/-- Python error kinds raised by this module. -/
inductive PyErr where
  | typeError
  | valueError
  deriving DecidableEq, Repr

/-- Method `Escape._escape_unicode_char_xubrace` (lines 121-130). -/
def escUniCharXubrace (c : Nat) : PyStr :=
  if c < 256 then [92, 120] ++ padHex 2 c
  else [92, 117, 123] ++ minHex c ++ [125]

/-- Method `Escape._escape_unicode_char_xuU` (lines 133-144). -/
def escUniCharXuU (c : Nat) : PyStr :=
  if c < 256 then [92, 120] ++ padHex 2 c
  else if c < 65536 then [92, 117] ++ padHex 4 c
  else [92, 85] ++ padHex 8 c

/-- Method `Escape._escape_unicode_char_ubrace` (lines 147-152). -/
def escUniCharUbrace (c : Nat) : PyStr := [92, 117, 123] ++ minHex c ++ [125]

/-- Method `Escape._escape_unicode_char_uU` (lines 155-164). -/
def escUniCharUU (c : Nat) : PyStr :=
  if c < 65536 then [92, 117] ++ padHex 4 c
  else [92, 85] ++ padHex 8 c

/-- Escaping-function selection at construction (lines 67-74), keyed on the
`x_escapes` and `brace_escapes` flags. -/
def escapeUnicodeChar (braceEscapes xEscapes : Bool) (c : Nat) : PyStr :=
  if xEscapes && braceEscapes then escUniCharXubrace c
  else if xEscapes then escUniCharXuU c
  else if braceEscapes then escUniCharUbrace c
  else escUniCharUU c

/-- The memoizing Unicode escape dict (lines 77-82): pre-seeded with the
short escapes, backed by the selected per-code-point escape function. -/
def escapeUnicodeDict (braceEscapes xEscapes : Bool) (c : Nat) : PyStr :=
  match shortEscape c with
  | some t => t
  | none => escapeUnicodeChar braceEscapes xEscapes c

/-- Single-character match condition of the compiled escape regexes
(lines 100-108): a backslash, the delimiter character for the chosen quote
context, a literal newline when `inline`, or a character of the
not-valid-literal class. -/
def needEscapeChar (nv : Nat → Bool) (delimChar : Nat) (inline : Bool) (c : Nat) : Bool :=
  c == 92 || c == delimChar || (inline && c == 10) || nv c

/-- Method `Escape.escape_unicode` (lines 167-189).  `nvU` and `nvA` stand
for the character classes of `re_patterns.NOT_VALID_LITERAL` and
`re_patterns.NOT_VALID_LITERAL_ASCII` (modelled from the spec: the
`re_patterns` module is not part of the supplied sources; the spec describes
these as externally supplied invalid-literal code-point classes, so they are
taken as parameters).  `only_ascii` selects which class the compiled regex
uses (line 94). -/
def escapeUnicode (onlyAscii braceEscapes xEscapes : Bool) (nvU nvA : Nat → Bool)
    (s delim : PyStr) (all inline : Bool) : Except PyErr PyStr :=
  if !(delim == [39]) && !(delim == [34]) then .error .typeError
  else
    let nv := if onlyAscii then nvA else nvU
    let delimChar := if delim == [39] then 39 else 34
    if all then .ok (s.flatMap (escapeUnicodeDict braceEscapes xEscapes))
    else .ok (s.flatMap fun c =>
      if needEscapeChar nv delimChar inline c then escapeUnicodeDict braceEscapes xEscapes c
      else [c])

/-- The 256-entry byte escape mapping of line 86 (`\xHH`, lower-case).  The
short-escape overlay of line 87 never completes (see `Escape_init` below). -/
def escapeBytesDictBase (b : Nat) : PyStr := [92, 120] ++ padHex 2 b

/-- Method `Escape.escape_bytes` (lines 192-211), with the byte dict in the
state line 86 leaves it in; `nvA` is the ASCII invalid-literal class
parameter as in `escapeUnicode`. -/
def escapeBytes (nvA : Nat → Bool) (b delim : PyStr) (inline : Bool) : Except PyErr PyStr :=
  if !(delim == [39]) && !(delim == [34]) then .error .typeError
  else
    let delimChar := if delim == [39] then 39 else 34
    .ok (b.flatMap fun c =>
      if needEscapeChar nvA delimChar inline c then escapeBytesDictBase c else [c])

/-! ## Construction (`Escape.__init__`, lines 55-118)

Line 56 checks each flag with Python `in (True, False)`, which tests with
`==`; under Python numeric equality `1 == True` and `0 == False`.  Line 87
iterates `grammar.SHORT_BACKSLASH_ESCAPES` (a dict) in a `for k, v in ...`
comprehension without `.items()`: iterating a dict yields its keys, which
here are one-character strings, so tuple-unpacking a key raises
`ValueError` before the instance is completed. -/

/-- Untyped Python value passed as a configuration flag. -/
inductive PyVal where
  | pybool (b : Bool)
  | pyint (n : Int)
  | pyother
  deriving DecidableEq, Repr

/-- Python `==` comparison of a flag value against the literal `True` or
`False` (`bool` is an `int` subclass: `True == 1`, `False == 0`). -/
def pyTruthEq (v : PyVal) (b : Bool) : Bool :=
  match v with
  | .pybool c => c == b
  | .pyint n => n == (if b then (1 : Int) else 0)
  | .pyother => false

/-- Python `opt in (True, False)` (line 56). -/
def pyInTrueFalse (v : PyVal) : Bool := pyTruthEq v true || pyTruthEq v false

/-- Keys of `grammar.SHORT_BACKSLASH_ESCAPES`, in the dict's insertion order:
each is a one-character string. -/
def shortEscapeKeys : List PyStr :=
  [[92], [39], [34], [7], [8], [27], [12], [10], [13], [9], [11]]

/-- Python tuple-unpacking `k, v = s` of a string `s` into two targets:
succeeds only when `s` has exactly two characters, else `ValueError`. -/
def pyUnpackPair (s : PyStr) : Except PyErr (Nat × Nat) :=
  match s with
  | [a, b] => .ok (a, b)
  | _ => .error .valueError

/-- State of a completed `Escape` instance: the raw flag values, and the
byte escape dict entries as built by lines 86-87. -/
structure EscapeState where
  only_ascii : PyVal
  brace_escapes : PyVal
  x_escapes : PyVal
  byteEscapeEntries : List (PyStr × PyStr)
  deriving DecidableEq

/-- Method `Escape.__init__` (lines 55-118): the flag check of lines 56-57,
then the byte-dict construction of lines 86-87, where the comprehension
`{k.encode('ascii'): v.encode('ascii') for k, v in grammar.SHORT_BACKSLASH_ESCAPES}`
unpacks each one-character key of the dict into `k, v`. -/
def Escape_init (onlyAscii braceEscapes xEscapes : PyVal) : Except PyErr EscapeState :=
  if !(pyInTrueFalse onlyAscii && pyInTrueFalse braceEscapes && pyInTrueFalse xEscapes) then
    .error .typeError
  else
    match shortEscapeKeys.mapM pyUnpackPair with
    | .error e => .error e
    | .ok pairs =>
        .ok ⟨onlyAscii, braceEscapes, xEscapes,
          ((List.range 256).map fun n => ([n], escapeBytesDictBase n)) ++
            pairs.map fun p => ([p.1], [p.2])⟩

/-! ## Unescape side (`class Unescape`, escape.py lines 216-323)

`Unescape.unescape_unicode` with the default newline scans with the compiled
`unicode_escape` regex (grammar.py lines 250-264):

`x_escape | u_escape | U_escape | ubrace_escape | \\<space>*<newline> | \\. | \\`

All alternatives start with a backslash, each hex alternative requires its
digit group to be uniformly `[0-9a-f]` or uniformly `[0-9A-F]`, and `.` does
not match a newline.  The scanner below consumes the input left to right,
copying non-backslash characters and, at each backslash, taking the first
alternative (in the regex's order) that matches; for `ubrace_escape` and the
line continuation, regex backtracking succeeds exactly when the maximal
digit/space run (capped at 6 for the brace digits) is followed by `}` (resp.
the newline), since any shorter run is followed by another run character. -/

/-- Alternative `x_escape`: `\x` plus exactly two same-case hex digits.
Input is the text after the backslash. -/
def matchX : PyStr → Option (PyStr × PyStr)
  | 120 :: rest =>
      match rest with
      | a :: b :: r =>
          if (lowHexD a && lowHexD b) || (upHexD a && upHexD b) then some ([92, 120, a, b], r)
          else none
      | _ => none
  | _ => none

/-- Alternative `u_escape`: `\u` plus exactly four same-case hex digits. -/
def matchU : PyStr → Option (PyStr × PyStr)
  | 117 :: rest =>
      match rest with
      | a :: b :: c :: d :: r =>
          if (lowHexD a && lowHexD b && lowHexD c && lowHexD d) ||
             (upHexD a && upHexD b && upHexD c && upHexD d) then
            some ([92, 117, a, b, c, d], r)
          else none
      | _ => none
  | _ => none

/-- Alternative `U_escape`: `\U` plus exactly eight same-case hex digits. -/
def matchCapU : PyStr → Option (PyStr × PyStr)
  | 85 :: rest =>
      match rest with
      | a :: b :: c :: d :: e :: f :: g :: h :: r =>
          if (lowHexD a && lowHexD b && lowHexD c && lowHexD d &&
              lowHexD e && lowHexD f && lowHexD g && lowHexD h) ||
             (upHexD a && upHexD b && upHexD c && upHexD d &&
              upHexD e && upHexD f && upHexD g && upHexD h) then
            some ([92, 85, a, b, c, d, e, f, g, h], r)
          else none
      | _ => none
  | _ => none

/-- Alternative `ubrace_escape`: `\u{` plus one to six same-case hex digits
plus `}`.  The greedy digit group with backtracking matches exactly when the
maximal same-class digit run has length 1-6 and is followed by the closing
brace (a shorter split would put a digit, not the brace, after the group). -/
def matchUbrace : PyStr → Option (PyStr × PyStr)
  | 117 :: rest =>
      match rest with
      | 123 :: r =>
          if 1 ≤ (r.takeWhile lowHexD).length && (r.takeWhile lowHexD).length ≤ 6 &&
              (r.drop (r.takeWhile lowHexD).length).head? == some 125 then
            some ([92, 117, 123] ++ r.takeWhile lowHexD ++ [125],
              (r.drop (r.takeWhile lowHexD).length).tail)
          else if 1 ≤ (r.takeWhile upHexD).length && (r.takeWhile upHexD).length ≤ 6 &&
              (r.drop (r.takeWhile upHexD).length).head? == some 125 then
            some ([92, 117, 123] ++ r.takeWhile upHexD ++ [125],
              (r.drop (r.takeWhile upHexD).length).tail)
          else none
      | _ => none
  | _ => none

/-- Alternative `\\<space>*<newline>`: a maximal run of spaces followed by a
newline (backtracking cannot help: a shorter split puts a space after the
group). -/
def matchCont (r : PyStr) : Option (PyStr × PyStr) :=
  match (r.drop (r.takeWhile (· == 32)).length).head? with
  | some 10 => some ([92] ++ r.takeWhile (· == 32) ++ [10],
      (r.drop (r.takeWhile (· == 32)).length).tail)
  | _ => none

/-- Token match at a backslash: the regex alternation in order, then `\\.`
(any character except newline) and bare `\\`.  Returns the matched token
(backslash included) and the remaining input. -/
def matchEscAfterBS (r : PyStr) : PyStr × PyStr :=
  match matchX r <|> matchU r <|> matchCapU r <|> matchUbrace r <|> matchCont r with
  | some p => p
  | none =>
    match r with
    | [] => ([92], [])
    | d :: r2 => if d == 10 then ([92], d :: r2) else ([92, d], r2)

/-- Error data of `erring.UnknownEscapeError(raw, display)`. -/
structure UnknownEsc where
  raw : PyStr
  display : PyStr
  deriving DecidableEq, Repr

/-- Display form for an unknown escape (lines 264-267): the token itself
when its last character is printable (0x21-0x7E), else a `\<U+...>`
placeholder whose hex uses `'{0:0x}'` (minimal length, no padding). -/
def unknownEscDisplay (t : PyStr) : PyStr :=
  let last := (t.getLast?).getD 0
  if 33 ≤ last ∧ last ≤ 126 then t
  else [92, 60, 85, 43] ++ minHex last ++ [62]

/-- Static method `Unescape._unescape_unicode_char` (lines 241-269) combined
with the dict seeding (line 226): short escapes resolve through
`SHORT_BACKSLASH_UNESCAPES`; otherwise `chr(int(s[2:].strip('{}'), 16))` is
attempted, a `ValueError` from either `int` or `chr` falling back to the
line-continuation check `s[-1] == newline` and then the unknown-escape
error. -/
def decodeTokUnicode (t : PyStr) : Except UnknownEsc PyStr :=
  match shortUnescape t with
  | some c => .ok [c]
  | none =>
      match (pyIntSixteen (pyStripCurly (t.drop 2))).bind pyChr with
      | some v => .ok v
      | none =>
          if t.getLast? == some 10 then .ok []
          else .error ⟨t, unknownEscDisplay t⟩

/-- One fuelled scanning pass of `unescape_unicode` with the default
newline: copy characters, and at each backslash match one token and decode
it, a raised `UnknownEscapeError` aborting the whole call.  Fuel at least
the input length always suffices, since every step consumes at least one
character. -/
def unescRun : Nat → PyStr → Except UnknownEsc PyStr
  | _, [] => .ok []
  | 0, _ :: _ => .ok []
  | fuel + 1, 92 :: r =>
      match decodeTokUnicode (matchEscAfterBS r).1 with
      | .error e => .error e
      | .ok v =>
          match unescRun fuel (matchEscAfterBS r).2 with
          | .error e => .error e
          | .ok t => .ok (v ++ t)
  | fuel + 1, c :: r =>
      match unescRun fuel r with
      | .error e => .error e
      | .ok t => .ok (c :: t)

/-- Method `Unescape.unescape_unicode` (lines 300-310) with the default
newline (`newline=None`), on a fresh `Unescape` instance. -/
def pyUnescapeUnicode (s : PyStr) : Except UnknownEsc PyStr := unescRun s.length s

/-! ### Byte-level unescaping (lines 227-229, 272-297, 313-323)

The compiled `bytes_escape` regex is `x_escape | \\<space>*<newline> | \\. | \\`.
The dict of line 227-229 is seeded with the 256 lower-case `\xHH` byte keys
(line 228); line 229 then updates it with `grammar.SHORT_BACKSLASH_UNESCAPES`
directly, whose keys and values are `str`, not `bytes` — under Python 3 a
`bytes` token from the regex never equals a `str` key, so those entries are
unreachable and short-escape byte tokens fall through to the factory
`_unescape_byte`.  There (line 290) `b[-1]` is an `int` while `newline` is
the `bytes` `b'\n'`, so `b[-1] == newline` is always `False` under Python 3. -/

/-- Byte-token match at a backslash: `x_escape`, the line continuation,
`\\.`, bare `\\`. -/
def matchEscAfterBSBytes (r : PyStr) : PyStr × PyStr :=
  match matchX r <|> matchCont r with
  | some p => p
  | none =>
    match r with
    | [] => ([92], [])
    | d :: r2 => if d == 10 then ([92], d :: r2) else ([92, d], r2)

/-- The byte-unescape dict lookup after lines 227-229: only the 256
lower-case `\xHH` keys are reachable by `bytes` tokens (the line-229 update
inserted `str` keys, which no `bytes` key equals under Python 3). -/
def byteDictSeeded (t : PyStr) : Option PyStr :=
  match t with
  | [92, 120, a, b] => if lowHexD a && lowHexD b then some [hexListVal [a, b]] else none
  | _ => none

/-- Static method `Unescape._unescape_byte` (lines 272-297):
`chr(int(b[2:], 16)).encode('latin1')`, a `ValueError` falling back to the
`b[-1] == newline` check — which under Python 3 compares an `int` with
`bytes` and is always `False` — and then the unknown-escape error, whose
display decodes the token as Latin-1 and replaces a non-printable final
character by a `\<0xHH>` placeholder (two zero-padded hex digits). -/
def decodeTokByte (t : PyStr) : Except UnknownEsc PyStr :=
  match byteDictSeeded t with
  | some v => .ok v
  | none =>
      match (pyIntSixteen (t.drop 2)).bind
          (fun n => if n ≤ 255 then some [n] else none) with
      | some v => .ok v
      | none =>
          let last := (t.getLast?).getD 0
          if 33 ≤ last ∧ last ≤ 126 then .error ⟨t, t⟩
          else .error ⟨t, [92, 60, 48, 120] ++ padHex 2 last ++ [62]⟩

/-- Fuelled scanning pass of `unescape_bytes` with the default newline. -/
def unescRunBytes : Nat → PyStr → Except UnknownEsc PyStr
  | _, [] => .ok []
  | 0, _ :: _ => .ok []
  | fuel + 1, 92 :: r =>
      match decodeTokByte (matchEscAfterBSBytes r).1 with
      | .error e => .error e
      | .ok v =>
          match unescRunBytes fuel (matchEscAfterBSBytes r).2 with
          | .error e => .error e
          | .ok t => .ok (v ++ t)
  | fuel + 1, c :: r =>
      match unescRunBytes fuel r with
      | .error e => .error e
      | .ok t => .ok (c :: t)

/-- Method `Unescape.unescape_bytes` (lines 313-323) with the default
newline, on a fresh `Unescape` instance. -/
def pyUnescapeBytes (b : PyStr) : Except UnknownEsc PyStr := unescRunBytes b.length b

/-! ## Basic lemmas about hex rendering and parsing -/

theorem hexDigitChar_val {d : Nat} (h : d < 16) : hexDigitVal (hexDigitChar d) = some d := by
  rcases Nat.lt_or_ge d 10 with h10 | h10
  · have he : hexDigitChar d = 48 + d := by simp [hexDigitChar, h10]
    rw [he]
    unfold hexDigitVal
    rw [if_pos (by omega)]
    congr 1
    omega
  · have he : hexDigitChar d = 87 + d := by simp [hexDigitChar, Nat.not_lt.mpr h10]
    rw [he]
    unfold hexDigitVal
    rw [if_neg (by omega), if_pos (by omega)]
    congr 1
    omega

theorem hexDigitChar_low {d : Nat} (h : d < 16) : lowHexD (hexDigitChar d) = true := by
  rcases Nat.lt_or_ge d 10 with h10 | h10
  · have he : hexDigitChar d = 48 + d := by simp [hexDigitChar, h10]
    rw [he]
    simp only [lowHexD, Bool.or_eq_true, Bool.and_eq_true, decide_eq_true_eq]
    omega
  · have he : hexDigitChar d = 87 + d := by simp [hexDigitChar, Nat.not_lt.mpr h10]
    rw [he]
    simp only [lowHexD, Bool.or_eq_true, Bool.and_eq_true, decide_eq_true_eq]
    omega

theorem minHexAux_adequate : ∀ f g n, n < 16 ^ (f + 1) → n < 16 ^ (g + 1) →
    minHexAux f n = minHexAux g n := by
  intro f
  induction f with
  | zero =>
      intro g n hf hg
      cases g with
      | zero => rfl
      | succ g' =>
          have h16 : n < 16 := by simpa using hf
          simp [minHexAux, h16, Nat.mod_eq_of_lt h16]
  | succ f' ih =>
      intro g n hf hg
      cases g with
      | zero =>
          have h16 : n < 16 := by simpa using hg
          simp [minHexAux, h16, Nat.mod_eq_of_lt h16]
      | succ g' =>
          by_cases h16 : n < 16
          · simp [minHexAux, h16]
          · have hdf : n / 16 < 16 ^ (f' + 1) := by
              rw [Nat.div_lt_iff_lt_mul (by norm_num)]
              calc n < 16 ^ (f' + 1 + 1) := hf
                _ = 16 ^ (f' + 1) * 16 := by ring
            have hdg : n / 16 < 16 ^ (g' + 1) := by
              rw [Nat.div_lt_iff_lt_mul (by norm_num)]
              calc n < 16 ^ (g' + 1 + 1) := hg
                _ = 16 ^ (g' + 1) * 16 := by ring
            simp only [minHexAux, if_neg h16]
            rw [ih g' (n / 16) hdf hdg]

theorem lt_pow_fuel (n : Nat) : n < 16 ^ (n + 1) := by
  calc n < 16 ^ n := Nat.lt_pow_self (by norm_num) n
    _ ≤ 16 ^ (n + 1) := Nat.pow_le_pow_right (by norm_num) (Nat.le_succ n)

theorem minHex_eq_aux {f n : Nat} (h : n < 16 ^ (f + 1)) : minHex n = minHexAux f n :=
  minHexAux_adequate n f n (lt_pow_fuel n) h

theorem minHexAux_low : ∀ f n c, c ∈ minHexAux f n → lowHexD c = true := by
  intro f
  induction f with
  | zero =>
      intro n c hc
      simp only [minHexAux, List.mem_singleton] at hc
      subst hc
      exact hexDigitChar_low (Nat.mod_lt _ (by norm_num))
  | succ f' ih =>
      intro n c hc
      by_cases h16 : n < 16
      · simp only [minHexAux, if_pos h16, List.mem_singleton] at hc
        subst hc
        exact hexDigitChar_low h16
      · simp only [minHexAux, if_neg h16, List.mem_append, List.mem_singleton] at hc
        rcases hc with hc | hc
        · exact ih _ _ hc
        · subst hc
          exact hexDigitChar_low (Nat.mod_lt _ (by norm_num))

theorem minHex_low {n c : Nat} (hc : c ∈ minHex n) : lowHexD c = true :=
  minHexAux_low n n c hc

theorem minHexAux_ne_nil : ∀ f n, minHexAux f n ≠ [] := by
  intro f
  induction f with
  | zero => intro n; simp [minHexAux]
  | succ f' ih =>
      intro n
      by_cases h16 : n < 16
      · simp [minHexAux, h16]
      · simp [minHexAux, h16]

theorem minHex_ne_nil (n : Nat) : minHex n ≠ [] := minHexAux_ne_nil n n

theorem minHexAux_len : ∀ f n k, 1 ≤ k → n < 16 ^ k → (minHexAux f n).length ≤ k := by
  intro f
  induction f with
  | zero => intro n k h1 _; simpa [minHexAux] using h1
  | succ f' ih =>
      intro n k h1 hk
      by_cases h16 : n < 16
      · simpa [minHexAux, h16] using h1
      · have hk2 : 2 ≤ k := by
          by_contra hlt
          interval_cases k
          simp at hk
          omega
        have hd : n / 16 < 16 ^ (k - 1) := by
          rw [Nat.div_lt_iff_lt_mul (by norm_num)]
          calc n < 16 ^ k := hk
            _ = 16 ^ (k - 1) * 16 := by
                rw [← Nat.pow_succ]
                congr 1
                omega
        simp only [minHexAux, if_neg h16, List.length_append, List.length_singleton]
        have := ih (n / 16) (k - 1) (by omega) hd
        omega

theorem minHex_len {n k : Nat} (h1 : 1 ≤ k) (hk : n < 16 ^ k) : (minHex n).length ≤ k :=
  minHexAux_len n n k h1 hk

theorem hexListVal_append_digit (l : List Nat) (c : Nat) :
    hexListVal (l ++ [c]) = 16 * hexListVal l + (hexDigitVal c).getD 0 := by
  simp [hexListVal, List.foldl_append]

theorem minHexAux_val : ∀ f n, n < 16 ^ (f + 1) → hexListVal (minHexAux f n) = n := by
  intro f
  induction f with
  | zero =>
      intro n hf
      have h16 : n < 16 := by simpa using hf
      rw [minHexAux, Nat.mod_eq_of_lt h16]
      simp [hexListVal, hexDigitChar_val h16]
  | succ f' ih =>
      intro n hf
      by_cases h16 : n < 16
      · simp [minHexAux, h16, hexListVal, hexDigitChar_val h16]
      · have hd : n / 16 < 16 ^ (f' + 1) := by
          rw [Nat.div_lt_iff_lt_mul (by norm_num)]
          calc n < 16 ^ (f' + 1 + 1) := hf
            _ = 16 ^ (f' + 1) * 16 := by ring
        simp only [minHexAux, if_neg h16]
        rw [hexListVal_append_digit, ih _ hd,
          hexDigitChar_val (Nat.mod_lt n (by norm_num))]
        simp only [Option.getD_some]
        omega

theorem minHex_val (n : Nat) : hexListVal (minHex n) = n :=
  minHexAux_val n n (lt_pow_fuel n)

theorem minHexAux_lt : ∀ f n, n < 16 ^ (f + 1) → n < 16 ^ (minHexAux f n).length := by
  intro f
  induction f with
  | zero =>
      intro n hf
      simpa [minHexAux] using hf
  | succ f' ih =>
      intro n hf
      by_cases h16 : n < 16
      · simp [minHexAux, h16]
      · have hd : n / 16 < 16 ^ (f' + 1) := by
          rw [Nat.div_lt_iff_lt_mul (by norm_num)]
          calc n < 16 ^ (f' + 1 + 1) := hf
            _ = 16 ^ (f' + 1) * 16 := by ring
        have := ih (n / 16) hd
        simp only [minHexAux, if_neg h16, List.length_append, List.length_singleton]
        have hpow : 16 ^ ((minHexAux f' (n / 16)).length + 1)
            = 16 ^ (minHexAux f' (n / 16)).length * 16 := by ring
        rw [hpow]
        have hn : n = 16 * (n / 16) + n % 16 := by omega
        have hm : n % 16 < 16 := Nat.mod_lt _ (by norm_num)
        nlinarith [this, hm]

theorem minHex_lt (n : Nat) : n < 16 ^ (minHex n).length :=
  minHexAux_lt n n (lt_pow_fuel n)

theorem hexListVal_zeros_append : ∀ (k : Nat) (l : List Nat),
    hexListVal (List.replicate k 48 ++ l) = hexListVal l := by
  intro k
  induction k with
  | zero => intro l; rfl
  | succ k' ih =>
      intro l
      have : hexListVal (List.replicate (k' + 1) 48 ++ l)
          = (List.replicate k' 48 ++ l).foldl (fun a c => 16 * a + (hexDigitVal c).getD 0)
            (16 * 0 + (hexDigitVal 48).getD 0) := by
        simp [hexListVal, List.replicate_succ]
      rw [this]
      have h48 : (16 * 0 + (hexDigitVal 48).getD 0) = 0 := by decide
      rw [h48]
      exact ih l

theorem padHex_val (w n : Nat) : hexListVal (padHex w n) = n := by
  rw [padHex, hexListVal_zeros_append, minHex_val]

theorem padHex_low {w n c : Nat} (hc : c ∈ padHex w n) : lowHexD c = true := by
  rcases List.mem_append.mp hc with h | h
  · rw [List.eq_of_mem_replicate h]
    decide
  · exact minHex_low h

theorem padHex_len {w n : Nat} (h : (minHex n).length ≤ w) : (padHex w n).length = w := by
  simp only [padHex, List.length_append, List.length_replicate]
  omega

/-! ## List scanning helpers -/

theorem takeWhile_all_append {p : Nat → Bool} : ∀ (l : List Nat) (x : Nat) (l2 : List Nat),
    (∀ c ∈ l, p c = true) → p x = false → ((l ++ x :: l2).takeWhile p) = l := by
  intro l
  induction l with
  | nil => intro x l2 _ hx; simp [List.takeWhile_cons, hx]
  | cons c cs ih =>
      intro x l2 hall hx
      have hc : p c = true := hall c (by simp)
      simp only [List.cons_append, List.takeWhile_cons, hc, if_true]
      rw [ih x l2 (fun d hd => hall d (by simp [hd])) hx]

theorem dropWhile_all {p : Nat → Bool} : ∀ (l : List Nat),
    (∀ c ∈ l, p c = true) → l.dropWhile p = [] := by
  intro l
  induction l with
  | nil => intro _; rfl
  | cons c cs ih =>
      intro hall
      simp only [List.dropWhile_cons, hall c (by simp), if_true]
      exact ih (fun d hd => hall d (by simp [hd]))

theorem dropWhile_eq_self_of_all_not {p : Nat → Bool} (l : List Nat)
    (h : ∀ c ∈ l, p c = false) : l.dropWhile p = l := by
  cases l with
  | nil => rfl
  | cons c cs => simp [List.dropWhile_cons, h c (by simp)]

theorem hexDigitVal_isSome_iff {c : Nat} : (hexDigitVal c).isSome ↔
    (48 ≤ c ∧ c ≤ 57) ∨ (97 ≤ c ∧ c ≤ 102) ∨ (65 ≤ c ∧ c ≤ 70) := by
  unfold hexDigitVal
  split_ifs with h1 h2 h3 <;> simp <;> omega

theorem hex_not_curly {c : Nat} (h : (hexDigitVal c).isSome) : (c == 123 || c == 125) = false := by
  rcases hexDigitVal_isSome_iff.mp h with h | h | h <;>
    simp only [Bool.or_eq_false_iff, beq_eq_false_iff_ne, ne_eq] <;> omega

theorem hex_not_pyspace {c : Nat} (h : (hexDigitVal c).isSome) : isPySpace c = false := by
  rcases hexDigitVal_isSome_iff.mp h with h | h | h <;>
    simp only [isPySpace, Bool.or_eq_false_iff, beq_eq_false_iff_ne, ne_eq] <;>
    refine ⟨⟨⟨⟨⟨?_, ?_⟩, ?_⟩, ?_⟩, ?_⟩, ?_⟩ <;> omega

theorem lowHexD_isSome {c : Nat} (h : lowHexD c = true) : (hexDigitVal c).isSome := by
  apply hexDigitVal_isSome_iff.mpr
  simp only [lowHexD, Bool.or_eq_true, Bool.and_eq_true, decide_eq_true_eq] at h
  omega

theorem upHexD_isSome {c : Nat} (h : upHexD c = true) : (hexDigitVal c).isSome := by
  apply hexDigitVal_isSome_iff.mpr
  simp only [upHexD, Bool.or_eq_true, Bool.and_eq_true, decide_eq_true_eq] at h
  omega

theorem stripCurly_hex (l : List Nat) (h : ∀ c ∈ l, (hexDigitVal c).isSome) :
    pyStripCurly l = l := by
  unfold pyStripCurly
  rw [dropWhile_eq_self_of_all_not l (fun c hc => hex_not_curly (h c hc)),
    dropWhile_eq_self_of_all_not l.reverse
      (fun c hc => hex_not_curly (h c (List.mem_reverse.mp hc))),
    List.reverse_reverse]

theorem stripCurly_wrap (l : List Nat) (h : ∀ c ∈ l, (hexDigitVal c).isSome) :
    pyStripCurly (123 :: (l ++ [125])) = l := by
  unfold pyStripCurly
  have h123 : ((123 : Nat) == 123 || (123 : Nat) == 125) = true := by decide
  have h125 : ((125 : Nat) == 123 || (125 : Nat) == 125) = true := by decide
  cases l with
  | nil => decide
  | cons c cs =>
      have hc : ((c == 123 || c == 125) : Bool) = false := hex_not_curly (h c (by simp))
      rw [List.dropWhile_cons, if_pos h123, List.cons_append, List.dropWhile_cons, if_neg (by simp [hc])]
      have hrev : (c :: (cs ++ [125]) : List Nat).reverse = 125 :: (c :: cs).reverse := by
        rw [show (c :: (cs ++ [125]) : List Nat) = (c :: cs) ++ [125] by simp]
        simp
      rw [hrev, List.dropWhile_cons, if_pos h125,
        dropWhile_eq_self_of_all_not (c :: cs).reverse
          (fun d hd => hex_not_curly (h d (List.mem_reverse.mp hd))),
        List.reverse_reverse]

theorem pyIntSixteen_hex (l : List Nat) (hne : l ≠ [])
    (h : ∀ c ∈ l, (hexDigitVal c).isSome) : pyIntSixteen l = some (hexListVal l) := by
  unfold pyIntSixteen
  rw [dropWhile_eq_self_of_all_not l (fun c hc => hex_not_pyspace (h c hc)),
    dropWhile_eq_self_of_all_not l.reverse
      (fun c hc => hex_not_pyspace (h c (List.mem_reverse.mp hc))),
    List.reverse_reverse]
  rw [if_pos]
  refine ⟨hne, ?_⟩
  rw [List.all_eq_true]
  exact fun c hc => by simpa using h c hc

theorem pyIntSixteen_space (l : List Nat) (h : ∀ c ∈ l, isPySpace c = true) :
    pyIntSixteen l = none := by
  unfold pyIntSixteen
  rw [dropWhile_all l h]
  simp

theorem hexListVal_lt : ∀ l : List Nat, hexListVal l < 16 ^ l.length := by
  intro l
  induction l using List.reverseRecOn with
  | nil => simp [hexListVal]
  | append_singleton l c ih =>
      rw [hexListVal_append_digit]
      have hc : (hexDigitVal c).getD 0 < 16 := by
        unfold hexDigitVal
        split_ifs with h1 h2 h3
        · simp only [Option.getD_some]; omega
        · simp only [Option.getD_some]; omega
        · simp only [Option.getD_some]; omega
        · simp
      simp only [List.length_append, List.length_singleton, pow_succ]
      nlinarith

/-! ## Decoding lemmas for individual tokens -/

theorem shortUnescape_long (a b : Nat) (t : PyStr) : shortUnescape (92 :: a :: b :: t) = none :=
  rfl

theorem decodeTok_x {a b : Nat} (ha : (hexDigitVal a).isSome) (hb : (hexDigitVal b).isSome) :
    decodeTokUnicode [92, 120, a, b] = .ok [hexListVal [a, b]] := by
  unfold decodeTokUnicode
  rw [shortUnescape_long]
  have hmem : ∀ c ∈ [a, b], (hexDigitVal c).isSome := by
    intro c hc
    rcases List.mem_pair.mp hc with rfl | rfl <;> assumption
  have hd : ([92, 120, a, b] : PyStr).drop 2 = [a, b] := rfl
  rw [hd, stripCurly_hex _ hmem, pyIntSixteen_hex _ (by simp) hmem]
  have hv : hexListVal [a, b] ≤ 1114111 := by
    have h2 := hexListVal_lt [a, b]
    have he : (16 : Nat) ^ ([a, b] : List Nat).length = 256 := by norm_num
    omega
  simp [pyChr, hv]

theorem decodeTok_u {a b c d : Nat} (ha : (hexDigitVal a).isSome) (hb : (hexDigitVal b).isSome)
    (hc : (hexDigitVal c).isSome) (hd : (hexDigitVal d).isSome) :
    decodeTokUnicode [92, 117, a, b, c, d] = .ok [hexListVal [a, b, c, d]] := by
  unfold decodeTokUnicode
  rw [shortUnescape_long]
  have hmem : ∀ e ∈ [a, b, c, d], (hexDigitVal e).isSome := by
    intro e he
    simp only [List.mem_cons, List.not_mem_nil, or_false] at he
    rcases he with rfl | rfl | rfl | rfl <;> assumption
  have hdr : ([92, 117, a, b, c, d] : PyStr).drop 2 = [a, b, c, d] := rfl
  rw [hdr, stripCurly_hex _ hmem, pyIntSixteen_hex _ (by simp) hmem]
  have hv : hexListVal [a, b, c, d] ≤ 1114111 := by
    have h4 := hexListVal_lt [a, b, c, d]
    have he : (16 : Nat) ^ ([a, b, c, d] : List Nat).length = 65536 := by norm_num
    omega
  simp [pyChr, hv]

theorem decodeTok_U {a b c d e f g h : Nat}
    (ha : (hexDigitVal a).isSome) (hb : (hexDigitVal b).isSome)
    (hc : (hexDigitVal c).isSome) (hd : (hexDigitVal d).isSome)
    (he : (hexDigitVal e).isSome) (hf : (hexDigitVal f).isSome)
    (hg : (hexDigitVal g).isSome) (hh : (hexDigitVal h).isSome)
    (hval : hexListVal [a, b, c, d, e, f, g, h] ≤ 1114111) :
    decodeTokUnicode [92, 85, a, b, c, d, e, f, g, h]
      = .ok [hexListVal [a, b, c, d, e, f, g, h]] := by
  unfold decodeTokUnicode
  rw [shortUnescape_long]
  have hmem : ∀ x ∈ [a, b, c, d, e, f, g, h], (hexDigitVal x).isSome := by
    intro x hx
    simp only [List.mem_cons, List.not_mem_nil, or_false] at hx
    rcases hx with rfl | rfl | rfl | rfl | rfl | rfl | rfl | rfl <;> assumption
  have hdr : ([92, 85, a, b, c, d, e, f, g, h] : PyStr).drop 2 = [a, b, c, d, e, f, g, h] := rfl
  rw [hdr, stripCurly_hex _ hmem, pyIntSixteen_hex _ (by simp) hmem]
  simp [pyChr, hval]

theorem decodeTok_ubrace {ds : List Nat} (hne : ds ≠ [])
    (hhex : ∀ c ∈ ds, (hexDigitVal c).isSome) (hval : hexListVal ds ≤ 1114111) :
    decodeTokUnicode ([92, 117, 123] ++ ds ++ [125]) = .ok [hexListVal ds] := by
  unfold decodeTokUnicode
  have hform : ([92, 117, 123] ++ ds ++ [125] : PyStr)
      = 92 :: 117 :: 123 :: (ds ++ [125]) := by simp
  rw [hform, shortUnescape_long]
  have hdr : (92 :: 117 :: 123 :: (ds ++ [125]) : PyStr).drop 2 = 123 :: (ds ++ [125]) := rfl
  rw [hdr, stripCurly_wrap _ hhex, pyIntSixteen_hex _ hne hhex]
  simp [pyChr, hval]

/-! ## Token-matching lemmas

These establish, for each escape-token shape, that the scanner consumes
exactly the token and leaves the rest of the input, independently of what
follows the token. -/

theorem matchX_ne {c : Nat} (h : c ≠ 120) (l : PyStr) : matchX (c :: l) = none := by
  unfold matchX
  split <;> simp_all

theorem matchU_ne {c : Nat} (h : c ≠ 117) (l : PyStr) : matchU (c :: l) = none := by
  unfold matchU
  split <;> simp_all

theorem matchCapU_ne {c : Nat} (h : c ≠ 85) (l : PyStr) : matchCapU (c :: l) = none := by
  unfold matchCapU
  split <;> simp_all

theorem matchUbrace_ne {c : Nat} (h : c ≠ 117) (l : PyStr) : matchUbrace (c :: l) = none := by
  unfold matchUbrace
  split <;> simp_all

theorem matchU_brace (l : PyStr) : matchU (117 :: 123 :: l) = none := by
  unfold matchU
  rcases l with _ | ⟨b, _ | ⟨c, _ | ⟨d, r⟩⟩⟩ <;> simp [lowHexD, upHexD]

theorem matchX_one (c : Nat) : matchX [c] = none := by
  unfold matchX
  split <;>
    first
    | rfl
    | (rename_i rest heq
       injection heq with h1 h2
       subst h2
       rfl)

theorem matchU_one (c : Nat) : matchU [c] = none := by
  unfold matchU
  split <;>
    first
    | rfl
    | (rename_i rest heq
       injection heq with h1 h2
       subst h2
       rfl)

theorem matchCapU_one (c : Nat) : matchCapU [c] = none := by
  unfold matchCapU
  split <;>
    first
    | rfl
    | (rename_i rest heq
       injection heq with h1 h2
       subst h2
       rfl)

theorem matchUbrace_one (c : Nat) : matchUbrace [c] = none := by
  unfold matchUbrace
  split <;>
    first
    | rfl
    | (rename_i rest heq
       injection heq with h1 h2
       subst h2
       rfl)

theorem matchCont_nospace {c : Nat} (h1 : c ≠ 32) (h2 : c ≠ 10) (l : PyStr) :
    matchCont (c :: l) = none := by
  unfold matchCont
  have hb : (c == 32) = false := by simp [h1]
  simp only [List.takeWhile_cons, hb, if_false, Bool.false_eq_true]
  simp only [List.length_nil, List.drop_zero, List.head?_cons]
  split <;> simp_all

theorem matchCont_one_space : matchCont [32] = none := by
  decide

/-- The `\\.`/`\\` fallback: a character other than `x`, `u`, `U`, a space or
a newline after the backslash always produces the two-character token. -/
theorem mbs_other {c : Nat} (hx : c ≠ 120) (hu : c ≠ 117) (hU : c ≠ 85) (hsp : c ≠ 32)
    (hnl : c ≠ 10) (r : PyStr) : matchEscAfterBS (c :: r) = ([92, c], r) := by
  unfold matchEscAfterBS
  rw [matchX_ne hx, matchU_ne hu, matchCapU_ne hU, matchUbrace_ne hu, matchCont_nospace hsp hnl]
  simp only [Option.orElse_none, Option.none_orElse]
  have hb : (c == 10) = false := by simp [hnl]
  simp [hb]

/-- A lone escape-like character: `\<c>` for `c` not a newline is consumed as
a two-character token even at end of input. -/
theorem mbs_one {c : Nat} (hnl : c ≠ 10) : matchEscAfterBS [c] = ([92, c], []) := by
  by_cases hsp : c = 32
  · subst hsp
    decide
  · unfold matchEscAfterBS
    rw [matchX_one, matchU_one, matchCapU_one, matchUbrace_one, matchCont_nospace hsp hnl]
    simp only [Option.orElse_none, Option.none_orElse]
    have hb : (c == 10) = false := by simp [hnl]
    simp [hb]

theorem mbs_x_list {ds : PyStr} (hlen : ds.length = 2) (hall : ∀ c ∈ ds, lowHexD c = true)
    (tail : PyStr) : matchEscAfterBS (120 :: (ds ++ tail)) = (92 :: 120 :: ds, tail) := by
  rcases ds with _ | ⟨a, _ | ⟨b, _ | ⟨c, r⟩⟩⟩ <;> simp_all
  obtain ⟨ha, hb⟩ := hall
  have hx : matchX (120 :: a :: b :: tail) = some ([92, 120, a, b], tail) := by
    simp [matchX, ha, hb]
  unfold matchEscAfterBS
  rw [hx]
  rfl

theorem mbs_u_list {ds : PyStr} (hlen : ds.length = 4) (hall : ∀ c ∈ ds, lowHexD c = true)
    (tail : PyStr) : matchEscAfterBS (117 :: (ds ++ tail)) = (92 :: 117 :: ds, tail) := by
  rcases ds with _ | ⟨a, _ | ⟨b, _ | ⟨c, _ | ⟨d, _ | ⟨e, r⟩⟩⟩⟩⟩ <;> simp_all
  obtain ⟨ha, hb, hc, hd⟩ := hall
  have hu : matchU (117 :: a :: b :: c :: d :: tail) = some ([92, 117, a, b, c, d], tail) := by
    simp [matchU, ha, hb, hc, hd]
  unfold matchEscAfterBS
  rw [matchX_ne (by decide), hu]
  rfl

theorem mbs_U_list {ds : PyStr} (hlen : ds.length = 8) (hall : ∀ c ∈ ds, lowHexD c = true)
    (tail : PyStr) : matchEscAfterBS (85 :: (ds ++ tail)) = (92 :: 85 :: ds, tail) := by
  rcases ds with _ | ⟨a, _ | ⟨b, _ | ⟨c, _ | ⟨d, _ | ⟨e, _ | ⟨f, _ | ⟨g, _ | ⟨h, _ | ⟨i, r⟩⟩⟩⟩⟩⟩⟩⟩⟩ <;>
    simp_all
  obtain ⟨ha, hb, hc, hd, he, hf, hg, hh⟩ := hall
  have hU : matchCapU (85 :: a :: b :: c :: d :: e :: f :: g :: h :: tail)
      = some ([92, 85, a, b, c, d, e, f, g, h], tail) := by
    simp [matchCapU, ha, hb, hc, hd, he, hf, hg, hh]
  unfold matchEscAfterBS
  rw [matchX_ne (by decide), matchU_ne (by decide), hU]
  rfl

theorem mbs_ubrace_low {ds : PyStr} (hall : ∀ c ∈ ds, lowHexD c = true)
    (h1 : 1 ≤ ds.length) (h6 : ds.length ≤ 6) (tail : PyStr) :
    matchEscAfterBS (117 :: 123 :: (ds ++ 125 :: tail))
      = ([92, 117, 123] ++ ds ++ [125], tail) := by
  have htw : (ds ++ 125 :: tail).takeWhile lowHexD = ds :=
    takeWhile_all_append ds 125 tail hall (by decide)
  have hub : matchUbrace (117 :: 123 :: (ds ++ 125 :: tail))
      = some ([92, 117, 123] ++ ds ++ [125], tail) := by
    simp only [matchUbrace, htw, List.drop_left, List.head?_cons, List.tail_cons]
    simp [h1, h6]
  unfold matchEscAfterBS
  rw [matchX_ne (by decide), matchU_brace, matchCapU_ne (by decide), hub]
  rfl

theorem exists_split_first_fail {p : Nat → Bool} : ∀ l : List Nat, (¬ ∀ c ∈ l, p c = true) →
    ∃ l1 x l2, l = l1 ++ x :: l2 ∧ (∀ c ∈ l1, p c = true) ∧ p x = false := by
  intro l
  induction l with
  | nil => intro h; exact absurd (by simp) h
  | cons c cs ih =>
      intro h
      by_cases hc : p c = true
      · have hcs : ¬ ∀ d ∈ cs, p d = true := by
          intro hall
          exact h (by
            intro d hd
            rcases List.mem_cons.mp hd with rfl | hd
            · exact hc
            · exact hall d hd)
        obtain ⟨l1, x, l2, heq, h1, hx⟩ := ih hcs
        refine ⟨c :: l1, x, l2, by rw [heq]; rfl, ?_, hx⟩
        intro d hd
        rcases List.mem_cons.mp hd with rfl | hd
        · exact hc
        · exact h1 d hd
      · exact ⟨[], c, cs, rfl, by simp, by simpa using hc⟩

theorem mbs_ubrace_up {ds : PyStr} (hall : ∀ c ∈ ds, upHexD c = true)
    (h1 : 1 ≤ ds.length) (h6 : ds.length ≤ 6) (tail : PyStr) :
    matchEscAfterBS (117 :: 123 :: (ds ++ 125 :: tail))
      = ([92, 117, 123] ++ ds ++ [125], tail) := by
  by_cases hlow : ∀ c ∈ ds, lowHexD c = true
  · exact mbs_ubrace_low hlow h1 h6 tail
  · obtain ⟨l1, x, l2, heq, hp, hx⟩ := exists_split_first_fail ds hlow
    have hxu : upHexD x = true := hall x (by rw [heq]; simp)
    have hx125 : (x == 125) = false := by
      simp only [upHexD, Bool.or_eq_true, Bool.and_eq_true, decide_eq_true_eq] at hxu
      simp only [lowHexD, Bool.or_eq_false_iff, Bool.and_eq_false_iff] at hx
      simp only [beq_eq_false_iff_ne, ne_eq]
      obtain ⟨hx1, hx2⟩ := hx
      rcases hxu with hxu | hxu <;>
        simp only [decide_eq_false_iff_not, Nat.not_le, decide_eq_true_eq] at * <;> omega
    have hassoc : ds ++ 125 :: tail = l1 ++ (x :: (l2 ++ 125 :: tail)) := by
      rw [heq]
      simp
    have htwl : (ds ++ 125 :: tail).takeWhile lowHexD = l1 := by
      rw [hassoc]
      exact takeWhile_all_append l1 x (l2 ++ 125 :: tail) hp hx
    have hdropl : (ds ++ 125 :: tail).drop l1.length = x :: (l2 ++ 125 :: tail) := by
      rw [hassoc]
      exact List.drop_left l1 _
    have htwu : (ds ++ 125 :: tail).takeWhile upHexD = ds := by
      exact takeWhile_all_append ds 125 tail hall (by decide)
    have hdropu : (ds ++ 125 :: tail).drop ds.length = 125 :: tail := List.drop_left ds _
    have hub : matchUbrace (117 :: 123 :: (ds ++ 125 :: tail))
        = some ([92, 117, 123] ++ ds ++ [125], tail) := by
      simp only [matchUbrace, htwl, hdropl, htwu, hdropu, List.head?_cons, List.tail_cons]
      rw [if_neg (by simp [hx125])]
      rw [if_pos (by simp [h1, h6])]
    unfold matchEscAfterBS
    rw [matchX_ne (by decide), matchU_brace, matchCapU_ne (by decide), hub]
    rfl

theorem mbs_cont (k : Nat) (tail : PyStr) :
    matchEscAfterBS (List.replicate k 32 ++ 10 :: tail)
      = (92 :: (List.replicate k 32 ++ [10]), tail) := by
  have htw : (List.replicate k 32 ++ 10 :: tail).takeWhile (· == 32) = List.replicate k 32 :=
    takeWhile_all_append _ 10 tail
      (fun c hc => by rw [List.eq_of_mem_replicate hc]; rfl) (by decide)
  have hdrop : (List.replicate k 32 ++ 10 :: tail).drop (List.replicate k 32).length
      = 10 :: tail := List.drop_left _ _
  have hcont : matchCont (List.replicate k 32 ++ 10 :: tail)
      = some (92 :: (List.replicate k 32 ++ [10]), tail) := by
    simp only [matchCont, htw, hdrop, List.head?_cons, List.tail_cons]
    simp
  cases k with
  | zero =>
      unfold matchEscAfterBS
      simp only [List.replicate, List.nil_append] at hcont ⊢
      rw [matchX_ne (by decide), matchU_ne (by decide), matchCapU_ne (by decide),
        matchUbrace_ne (by decide), hcont]
      rfl
  | succ k' =>
      unfold matchEscAfterBS
      rw [show List.replicate (k' + 1) 32 ++ 10 :: tail
          = 32 :: (List.replicate k' 32 ++ 10 :: tail) from by simp [List.replicate_succ]] at hcont ⊢
      rw [matchX_ne (by decide), matchU_ne (by decide), matchCapU_ne (by decide),
        matchUbrace_ne (by decide), hcont]
      rfl

/-! ## Fuel adequacy for the scanner -/

theorem matchX_rest {r : PyStr} {p : PyStr × PyStr} (h : matchX r = some p) :
    p.2.length ≤ r.length := by
  unfold matchX at h
  split at h
  · split at h
    · split at h
      · rename_i l1 heq1 a b l2 heq2
        injection h with h
        subst h
        simp_all
        omega
      · exact absurd h (by simp)
    · exact absurd h (by simp)
  · exact absurd h (by simp)

theorem matchU_rest {r : PyStr} {p : PyStr × PyStr} (h : matchU r = some p) :
    p.2.length ≤ r.length := by
  unfold matchU at h
  split at h
  · split at h
    · split at h
      · rename_i l1 heq1 a b c d l2 heq2
        injection h with h
        subst h
        simp_all
        omega
      · exact absurd h (by simp)
    · exact absurd h (by simp)
  · exact absurd h (by simp)

theorem matchCapU_rest {r : PyStr} {p : PyStr × PyStr} (h : matchCapU r = some p) :
    p.2.length ≤ r.length := by
  unfold matchCapU at h
  split at h
  · split at h
    · split at h
      · rename_i l1 heq1 a b c d e f g i l2 heq2
        injection h with h
        subst h
        simp_all
        omega
      · exact absurd h (by simp)
    · exact absurd h (by simp)
  · exact absurd h (by simp)

theorem matchUbrace_rest {r : PyStr} {p : PyStr × PyStr} (h : matchUbrace r = some p) :
    p.2.length ≤ r.length := by
  unfold matchUbrace at h
  split at h
  · split at h
    · split at h
      · injection h with h
        subst h
        simp_all only [List.length_cons, List.length_tail, List.length_drop]
        omega
      · split at h
        · injection h with h
          subst h
          simp_all only [List.length_cons, List.length_tail, List.length_drop]
          omega
        · exact absurd h (by simp)
    · exact absurd h (by simp)
  · exact absurd h (by simp)

theorem matchCont_rest {r : PyStr} {p : PyStr × PyStr} (h : matchCont r = some p) :
    p.2.length ≤ r.length := by
  unfold matchCont at h
  split at h
  · injection h with h
    subst h
    simp_all only [List.length_tail, List.length_drop]
    omega
  · exact absurd h (by simp)

theorem mbs_rest (r : PyStr) : (matchEscAfterBS r).2.length ≤ r.length := by
  unfold matchEscAfterBS
  rcases h1 : matchX r with _ | p1
  case some => simpa using matchX_rest h1
  rcases h2 : matchU r with _ | p2
  case some => simp only [h1, h2, Option.none_orElse, Option.some_orElse]; exact matchU_rest h2
  rcases h3 : matchCapU r with _ | p3
  case some =>
    simp only [h1, h2, h3, Option.none_orElse, Option.some_orElse]
    exact matchCapU_rest h3
  rcases h4 : matchUbrace r with _ | p4
  case some =>
    simp only [h1, h2, h3, h4, Option.none_orElse, Option.some_orElse]
    exact matchUbrace_rest h4
  rcases h5 : matchCont r with _ | p5
  case some =>
    simp only [h1, h2, h3, h4, h5, Option.none_orElse, Option.some_orElse]
    exact matchCont_rest h5
  simp only [h1, h2, h3, h4, h5, Option.none_orElse]
  cases r with
  | nil => simp
  | cons d r2 =>
      by_cases hd : (d == 10) = true <;> simp [hd]

theorem unescRun_nil (f : Nat) : unescRun f [] = .ok [] := by
  cases f <;> rfl

theorem unescRun_92 (f : Nat) (r : PyStr) :
    unescRun (f + 1) (92 :: r)
      = match decodeTokUnicode (matchEscAfterBS r).1 with
        | .error e => .error e
        | .ok v =>
            match unescRun f (matchEscAfterBS r).2 with
            | .error e => .error e
            | .ok t => .ok (v ++ t) := rfl

theorem unescRun_ne {c : Nat} (h : c ≠ 92) (f : Nat) (r : PyStr) :
    unescRun (f + 1) (c :: r)
      = match unescRun f r with
        | .error e => .error e
        | .ok t => .ok (c :: t) := by
  rw [unescRun.eq_def]
  split <;> simp_all

/-- Any fuel at least the input length gives the same scan result, since
every step consumes at least one input character. -/
theorem unescRun_fuel : ∀ (n : Nat) (s : PyStr) (f g : Nat), s.length ≤ n → s.length ≤ f →
    s.length ≤ g → unescRun f s = unescRun g s := by
  intro n
  induction n with
  | zero =>
      intro s f g hn _ _
      have : s = [] := List.length_eq_zero.mp (Nat.le_zero.mp hn)
      subst this
      rw [unescRun_nil, unescRun_nil]
  | succ n' ih =>
      intro s f g hn hf hg
      cases s with
      | nil => rw [unescRun_nil, unescRun_nil]
      | cons c r =>
          simp only [List.length_cons] at hn hf hg
          obtain ⟨f', rfl⟩ : ∃ f', f = f' + 1 := ⟨f - 1, by omega⟩
          obtain ⟨g', rfl⟩ : ∃ g', g = g' + 1 := ⟨g - 1, by omega⟩
          by_cases hc : c = 92
          · subst hc
            rw [unescRun_92, unescRun_92]
            have hrest := mbs_rest r
            rw [ih (matchEscAfterBS r).2 f' g' (by omega) (by omega) (by omega)]
          · rw [unescRun_ne hc, unescRun_ne hc]
            rw [ih r f' g' (by omega) (by omega) (by omega)]

/-- Scanning a well-formed token at the head of the input decodes it and
continues independently on the remaining input. -/
theorem unesc_step_tok {tokrest tail v : PyStr}
    (hm : matchEscAfterBS (tokrest ++ tail) = (92 :: tokrest, tail))
    (hd : decodeTokUnicode (92 :: tokrest) = .ok v) :
    ∀ f, tokrest.length + tail.length + 1 ≤ f →
      unescRun f (92 :: (tokrest ++ tail))
        = match unescRun tail.length tail with
          | .error e => .error e
          | .ok t => .ok (v ++ t) := by
  intro f hf
  obtain ⟨f', rfl⟩ : ∃ f', f = f' + 1 := ⟨f - 1, by omega⟩
  rw [unescRun_92, hm]
  simp only [hd]
  rw [unescRun_fuel tail.length tail f' tail.length (le_refl _) (by omega) (le_refl _)]

/-- Scanning an ill-formed token at the head of the input aborts the whole
call with the unknown-escape error. -/
theorem unesc_step_err {tokrest tail : PyStr} {e : UnknownEsc}
    (hm : matchEscAfterBS (tokrest ++ tail) = (92 :: tokrest, tail))
    (hd : decodeTokUnicode (92 :: tokrest) = .error e) :
    ∀ f, 1 ≤ f → unescRun f (92 :: (tokrest ++ tail)) = .error e := by
  intro f hf
  obtain ⟨f', rfl⟩ : ∃ f', f = f' + 1 := ⟨f - 1, by omega⟩
  rw [unescRun_92, hm]
  simp only [hd]

theorem length_eq_four {l : List Nat} (h : l.length = 4) : ∃ a b c d, l = [a, b, c, d] := by
  rcases l with _ | ⟨a, _ | ⟨b, _ | ⟨c, _ | ⟨d, _ | ⟨e, r⟩⟩⟩⟩⟩ <;>
    simp only [List.length_nil, List.length_cons] at h <;>
    first
    | omega
    | exact ⟨a, b, c, d, rfl⟩

theorem length_eq_eight {l : List Nat} (h : l.length = 8) :
    ∃ a b c d e f g i, l = [a, b, c, d, e, f, g, i] := by
  rcases l with _ | ⟨a, _ | ⟨b, _ | ⟨c, _ | ⟨d, _ | ⟨e, _ | ⟨f, _ | ⟨g, _ | ⟨i, _ | ⟨j, r⟩⟩⟩⟩⟩⟩⟩⟩⟩ <;>
    simp only [List.length_nil, List.length_cons] at h <;>
    first
    | omega
    | exact ⟨a, b, c, d, e, f, g, i, rfl⟩

theorem decodeTok_x_list {ds : PyStr} (hlen : ds.length = 2)
    (hall : ∀ c ∈ ds, (hexDigitVal c).isSome) :
    decodeTokUnicode (92 :: 120 :: ds) = .ok [hexListVal ds] := by
  obtain ⟨a, b, rfl⟩ := List.length_eq_two.mp hlen
  exact decodeTok_x (hall a (by simp)) (hall b (by simp))

theorem decodeTok_u_list {ds : PyStr} (hlen : ds.length = 4)
    (hall : ∀ c ∈ ds, (hexDigitVal c).isSome) :
    decodeTokUnicode (92 :: 117 :: ds) = .ok [hexListVal ds] := by
  obtain ⟨a, b, c, d, rfl⟩ := length_eq_four hlen
  exact decodeTok_u (hall a (by simp)) (hall b (by simp)) (hall c (by simp)) (hall d (by simp))

theorem decodeTok_U_list {ds : PyStr} (hlen : ds.length = 8)
    (hall : ∀ c ∈ ds, (hexDigitVal c).isSome) (hval : hexListVal ds ≤ 1114111) :
    decodeTokUnicode (92 :: 85 :: ds) = .ok [hexListVal ds] := by
  obtain ⟨a, b, c, d, e, f, g, i, rfl⟩ := length_eq_eight hlen
  exact decodeTok_U (hall a (by simp)) (hall b (by simp)) (hall c (by simp)) (hall d (by simp))
    (hall e (by simp)) (hall f (by simp)) (hall g (by simp)) (hall i (by simp)) hval

/-! ## Escape tokens are consumed and decoded back to their source character -/

/-- Specification bundle for a token: the escape output is a backslash-led
token that the scanner consumes exactly and the decoder maps back to the
original code point. -/
def TokSpec (tok : PyStr) (c : Nat) : Prop :=
  ∃ tokrest, tok = 92 :: tokrest ∧
    (∀ tail, matchEscAfterBS (tokrest ++ tail) = (92 :: tokrest, tail)) ∧
    decodeTokUnicode (92 :: tokrest) = .ok [c]

theorem tok_x_spec {c : Nat} (hc : c < 256) : TokSpec ([92, 120] ++ padHex 2 c) c := by
  have hlen : (padHex 2 c).length = 2 :=
    padHex_len (minHex_len (by norm_num) (by norm_num; omega))
  have hlow : ∀ d ∈ padHex 2 c, lowHexD d = true := fun d hd => padHex_low hd
  refine ⟨120 :: padHex 2 c, rfl, ?_, ?_⟩
  · intro tail
    have h := mbs_x_list hlen hlow tail
    simpa using h
  · have h := decodeTok_x_list hlen (fun d hd => lowHexD_isSome (hlow d hd))
    rw [padHex_val] at h
    exact h

theorem tok_u_spec {c : Nat} (hc : c < 65536) : TokSpec ([92, 117] ++ padHex 4 c) c := by
  have hlen : (padHex 4 c).length = 4 :=
    padHex_len (minHex_len (by norm_num) (by norm_num; omega))
  have hlow : ∀ d ∈ padHex 4 c, lowHexD d = true := fun d hd => padHex_low hd
  refine ⟨117 :: padHex 4 c, rfl, ?_, ?_⟩
  · intro tail
    have h := mbs_u_list hlen hlow tail
    simpa using h
  · have h := decodeTok_u_list hlen (fun d hd => lowHexD_isSome (hlow d hd))
    rw [padHex_val] at h
    exact h

theorem tok_U_spec {c : Nat} (hc : c ≤ 1114111) : TokSpec ([92, 85] ++ padHex 8 c) c := by
  have hlen : (padHex 8 c).length = 8 :=
    padHex_len (minHex_len (by norm_num) (by norm_num; omega))
  have hlow : ∀ d ∈ padHex 8 c, lowHexD d = true := fun d hd => padHex_low hd
  refine ⟨85 :: padHex 8 c, rfl, ?_, ?_⟩
  · intro tail
    have h := mbs_U_list hlen hlow tail
    simpa using h
  · have h := decodeTok_U_list hlen (fun d hd => lowHexD_isSome (hlow d hd))
      (by rw [padHex_val]; exact hc)
    rw [padHex_val] at h
    exact h

theorem tok_ubrace_spec {c : Nat} (hc : c ≤ 1114111) :
    TokSpec ([92, 117, 123] ++ minHex c ++ [125]) c := by
  have hne := minHex_ne_nil c
  have h1 : 1 ≤ (minHex c).length := List.length_pos.mpr hne
  have h6 : (minHex c).length ≤ 6 := minHex_len (by norm_num) (by norm_num; omega)
  have hlow : ∀ d ∈ minHex c, lowHexD d = true := fun d hd => minHex_low hd
  refine ⟨117 :: 123 :: (minHex c ++ [125]), by simp, ?_, ?_⟩
  · intro tail
    have h := mbs_ubrace_low hlow h1 h6 tail
    have hsh : (117 :: 123 :: (minHex c ++ [125])) ++ tail
        = 117 :: 123 :: (minHex c ++ 125 :: tail) := by simp
    rw [hsh, h]
    simp
  · have h := decodeTok_ubrace hne (fun d hd => lowHexD_isSome (hlow d hd))
      (by rw [minHex_val]; exact hc)
    rw [minHex_val] at h
    have hsh : ([92, 117, 123] ++ minHex c ++ [125] : PyStr)
        = 92 :: (117 :: 123 :: (minHex c ++ [125])) := by simp
    rw [hsh] at h
    exact h

/-- Every escape-dict output token round-trips through the scanner and
decoder to its source code point. -/
theorem escDict_spec (be xe : Bool) {c : Nat} (hc : c ≤ 1114111) :
    TokSpec (escapeUnicodeDict be xe c) c := by
  rcases hse : shortEscape c with _ | t
  · have hdict : escapeUnicodeDict be xe c = escapeUnicodeChar be xe c := by
      simp [escapeUnicodeDict, hse]
    rw [hdict]
    cases be <;> cases xe <;>
      simp only [escapeUnicodeChar, Bool.and_self, Bool.and_true, Bool.and_false,
        Bool.true_and, Bool.false_and, Bool.false_and, if_true, if_false,
        Bool.true_eq_false, Bool.false_eq_true] <;>
      first
      | -- xubrace (be = true, xe = true)
        (unfold escUniCharXubrace
         split_ifs with h1
         · exact tok_x_spec h1
         · exact tok_ubrace_spec hc)
      | -- xuU (be = false, xe = true)
        (unfold escUniCharXuU
         split_ifs with h1 h2
         · exact tok_x_spec h1
         · exact tok_u_spec h2
         · exact tok_U_spec hc)
      | -- ubrace (be = true, xe = false)
        (unfold escUniCharUbrace
         exact tok_ubrace_spec hc)
      | -- uU (be = false, xe = false)
        (unfold escUniCharUU
         split_ifs with h1
         · exact tok_u_spec h1
         · exact tok_U_spec hc)
  · have hdict : escapeUnicodeDict be xe c = t := by
      simp [escapeUnicodeDict, hse]
    rw [hdict]
    unfold shortEscape at hse
    split at hse <;>
      first
      | (injection hse with hse
         subst hse
         exact ⟨_, rfl,
           fun tail => mbs_other (by decide) (by decide) (by decide) (by decide) (by decide) tail,
           by decide⟩)
      | exact absurd hse (by simp)

/-- Core round-trip induction: a string transformed character by character,
each character either replaced by its escape token or kept literally (and
then not a backslash), is scanned back to the original string. -/
theorem unesc_escape_flatMap (be xe : Bool) :
    ∀ s : PyStr, (∀ c ∈ s, c ≤ 1114111) →
      ∀ g : Nat → PyStr, (∀ c ∈ s, g c = escapeUnicodeDict be xe c ∨ (g c = [c] ∧ c ≠ 92)) →
        ∀ f, (s.flatMap g).length ≤ f → unescRun f (s.flatMap g) = .ok s := by
  intro s
  induction s with
  | nil =>
      intro _ g _ f _
      simp only [List.flatMap_nil]
      exact unescRun_nil f
  | cons c s' ih =>
      intro hval g hg f hf
      have hflat : (c :: s').flatMap g = g c ++ s'.flatMap g := by
        simp [List.flatMap_cons]
      rw [hflat] at hf ⊢
      have ihs := ih (fun d hd => hval d (by simp [hd])) g (fun d hd => hg d (by simp [hd]))
        (s'.flatMap g).length (le_refl _)
      rcases hg c (by simp) with hgc | ⟨hgc, hc92⟩
      · obtain ⟨tokrest, htok, hm, hd⟩ := escDict_spec be xe (hval c (by simp))
        rw [hgc, htok] at hf ⊢
        have hcons : (92 :: tokrest) ++ s'.flatMap g = 92 :: (tokrest ++ s'.flatMap g) := rfl
        rw [hcons]
        rw [unesc_step_tok (hm _) hd f (by
          simp only [List.length_append, List.length_cons] at hf
          omega)]
        rw [ihs]
        rfl
      · rw [hgc] at hf ⊢
        have hcons : ([c] ++ s'.flatMap g) = c :: s'.flatMap g := rfl
        rw [hcons] at hf ⊢
        obtain ⟨f', rfl⟩ : ∃ f', f = f' + 1 := ⟨f - 1, by
          simp only [List.length_cons] at hf
          omega⟩
        rw [unescRun_ne hc92]
        rw [unescRun_fuel (s'.flatMap g).length (s'.flatMap g) f' (s'.flatMap g).length
          (le_refl _) (by simp only [List.length_cons] at hf; omega) (le_refl _)]
        rw [ihs]

/-! ## Support lemmas for the unknown-escape and continuation claims -/

theorem stripCurly_nobrace (l : List Nat) (h : ∀ c ∈ l, (c == 123 || c == 125) = false) :
    pyStripCurly l = l := by
  unfold pyStripCurly
  rw [dropWhile_eq_self_of_all_not l h,
    dropWhile_eq_self_of_all_not l.reverse (fun c hc => h c (List.mem_reverse.mp hc)),
    List.reverse_reverse]

theorem shortUnescape_len_ne {l : PyStr} (h : l.length ≠ 2) : shortUnescape l = none := by
  unfold shortUnescape
  split <;> simp_all

theorem mbs_x_any {a b : Nat}
    (h : ((lowHexD a && lowHexD b) || (upHexD a && upHexD b)) = true) (r : PyStr) :
    matchEscAfterBS (120 :: a :: b :: r) = ([92, 120, a, b], r) := by
  have hx : matchX (120 :: a :: b :: r) = some ([92, 120, a, b], r) := by
    simp [matchX, h]
  unfold matchEscAfterBS
  rw [hx]
  rfl

theorem mbs_u_any {a b c d : Nat}
    (h : ((lowHexD a && lowHexD b && lowHexD c && lowHexD d) ||
      (upHexD a && upHexD b && upHexD c && upHexD d)) = true) (r : PyStr) :
    matchEscAfterBS (117 :: a :: b :: c :: d :: r) = ([92, 117, a, b, c, d], r) := by
  have hu : matchU (117 :: a :: b :: c :: d :: r) = some ([92, 117, a, b, c, d], r) := by
    simp [matchU, h]
  unfold matchEscAfterBS
  rw [matchX_ne (by decide), hu]
  rfl

theorem mbs_U_any {a b c d e f g i : Nat}
    (h : ((lowHexD a && lowHexD b && lowHexD c && lowHexD d &&
        lowHexD e && lowHexD f && lowHexD g && lowHexD i) ||
      (upHexD a && upHexD b && upHexD c && upHexD d &&
        upHexD e && upHexD f && upHexD g && upHexD i)) = true) (r : PyStr) :
    matchEscAfterBS (85 :: a :: b :: c :: d :: e :: f :: g :: i :: r)
      = ([92, 85, a, b, c, d, e, f, g, i], r) := by
  have hU : matchCapU (85 :: a :: b :: c :: d :: e :: f :: g :: i :: r)
      = some ([92, 85, a, b, c, d, e, f, g, i], r) := by
    simp [matchCapU, h]
  unfold matchEscAfterBS
  rw [matchX_ne (by decide), matchU_ne (by decide), hU]
  rfl

theorem matchUbrace_nonbrace {a : Nat} (h : a ≠ 123) (l : PyStr) :
    matchUbrace (117 :: a :: l) = none := by
  unfold matchUbrace
  split
  · rename_i rest heq
    injection heq with h1 h2
    subst h2
    split
    · rename_i r heq2
      injection heq2 with h3 h4
      exact absurd h3 h
    · rfl
  · rename_i hfalse
    exact absurd rfl (hfalse (a :: l))

/-- A line-continuation token decodes to the empty string: its body is
whitespace only, so `int` raises, and the last character is the newline. -/
theorem decodeTok_cont (k : Nat) :
    decodeTokUnicode (92 :: (List.replicate k 32 ++ [10])) = .ok [] := by
  cases k with
  | zero => decide
  | succ k' =>
      have hshort : shortUnescape (92 :: (List.replicate (k' + 1) 32 ++ [10])) = none :=
        shortUnescape_len_ne (by simp)
      unfold decodeTokUnicode
      rw [hshort]
      have hdrop : (92 :: (List.replicate (k' + 1) 32 ++ [10])).drop 2
          = List.replicate k' 32 ++ [10] := by
        simp [List.replicate_succ]
      rw [hdrop]
      have hmem : ∀ c ∈ List.replicate k' 32 ++ [10], c = 32 ∨ c = 10 := by
        intro c hc
        rcases List.mem_append.mp hc with hc | hc
        · exact Or.inl (List.eq_of_mem_replicate hc)
        · simp only [List.mem_singleton] at hc
          exact Or.inr hc
      have hstrip : pyStripCurly (List.replicate k' 32 ++ [10])
          = List.replicate k' 32 ++ [10] := by
        apply stripCurly_nobrace
        intro c hc
        rcases hmem c hc with rfl | rfl <;> decide
      rw [hstrip]
      have hint : pyIntSixteen (List.replicate k' 32 ++ [10]) = none := by
        apply pyIntSixteen_space
        intro c hc
        rcases hmem c hc with rfl | rfl <;> decide
      rw [hint]
      have hlast : (92 :: (List.replicate (k' + 1) 32 ++ [10])).getLast? = some 10 := by
        rw [show 92 :: (List.replicate (k' + 1) 32 ++ [10])
            = (92 :: List.replicate (k' + 1) 32) ++ 10 :: [] from by simp]
        rw [List.getLast?_append_cons]
        rfl
      rw [hlast]
      rfl

/-! ## Final helpers for the claim theorems -/

/-- Modelled from the spec: `re_patterns.NOT_VALID_LITERAL` is not among the
supplied sources; the spec describes it as the full-Unicode class of code
points that may not appear literally (control characters, unpaired
surrogates, and other code points the format forbids verbatim).  This
concrete instance is used only to evaluate closed counterexamples; every
universally quantified theorem takes the class as a parameter instead. -/
def NOT_VALID_LITERAL_model (c : Nat) : Bool :=
  (c < 32 && c != 9 && c != 10) || (127 ≤ c && c ≤ 159) ||
    (55296 ≤ c && c ≤ 57343) || c == 65534 || c == 65535

/-- Modelled from the spec: ASCII restriction of the invalid-literal class
(`re_patterns.NOT_VALID_LITERAL_ASCII`), matching every code point that may
not appear literally in ASCII-only output (including everything non-ASCII). -/
def NOT_VALID_LITERAL_ASCII_model (c : Nat) : Bool :=
  (c < 32 && c != 9 && c != 10) || 127 ≤ c

theorem flatMap_id_of_singleton : ∀ (s : PyStr) (g : Nat → PyStr),
    (∀ c ∈ s, g c = [c]) → s.flatMap g = s := by
  intro s
  induction s with
  | nil => intro g _; rfl
  | cons c s' ih =>
      intro g hg
      rw [List.flatMap_cons, hg c (by simp), ih g (fun d hd => hg d (by simp [hd]))]
      rfl

/-- The escape method never fails once the delimiter check passes, and its
result is the per-character substitution described by lines 174-189. -/
theorem escapeUnicode_ok (nvU nvA : Nat → Bool) (onlyAscii braceEscapes xEscapes all inline : Bool)
    (s delim : PyStr) (hdelim : delim = [39] ∨ delim = [34]) :
    escapeUnicode onlyAscii braceEscapes xEscapes nvU nvA s delim all inline
      = .ok (s.flatMap fun c =>
          if all then escapeUnicodeDict braceEscapes xEscapes c
          else if needEscapeChar (if onlyAscii then nvA else nvU)
              (if delim == [39] then 39 else 34) inline c
            then escapeUnicodeDict braceEscapes xEscapes c
            else [c]) := by
  have hcond : (!(delim == [39]) && !(delim == [34])) = false := by
    rcases hdelim with rfl | rfl <;> decide
  unfold escapeUnicode
  rw [hcond]
  cases all <;> simp

/-- Every short escape token is a backslash followed by one character. -/
theorem shortEscape_form (c : Nat) (t : PyStr) (h : shortEscape c = some t) :
    ∃ x, t = [92, x] := by
  unfold shortEscape at h
  split at h <;> first | (injection h with h2; exact ⟨_, h2.symm⟩) | cases h

/-- Every per-code-point numeric escape is a backslash followed by at least
one more character. -/
theorem escapeUnicodeChar_form (b x : Bool) (c : Nat) :
    ∃ d r, escapeUnicodeChar b x c = 92 :: d :: r := by
  unfold escapeUnicodeChar escUniCharXubrace escUniCharXuU escUniCharUbrace escUniCharUU
  repeat' split
  all_goals exact ⟨_, _, rfl⟩

/-- Every replacement the escape dict produces is a backslash followed by at
least one more character. -/
theorem escapeUnicodeDict_form (b x : Bool) (c : Nat) :
    ∃ d r, escapeUnicodeDict b x c = 92 :: d :: r := by
  unfold escapeUnicodeDict
  cases hse : shortEscape c with
  | some t =>
    obtain ⟨y, hy⟩ := shortEscape_form c t hse
    exact ⟨y, [], by rw [hy]⟩
  | none => exact escapeUnicodeChar_form b x c

/-- The escape dict always emits a backslash. -/
theorem escapeUnicodeDict_mem92 (b x : Bool) (c : Nat) :
    92 ∈ escapeUnicodeDict b x c := by
  obtain ⟨d, r, h⟩ := escapeUnicodeDict_form b x c
  rw [h]
  exact List.mem_cons_self _ _

/-- The escape dict always emits at least two characters. -/
theorem escapeUnicodeDict_two_le (b x : Bool) (c : Nat) :
    2 ≤ (escapeUnicodeDict b x c).length := by
  obtain ⟨d, r, h⟩ := escapeUnicodeDict_form b x c
  rw [h]
  simp

/-- A per-character substitution that never drops a character does not
shorten the string. -/
theorem flatMap_length_le (g : Nat → PyStr) (hg : ∀ c, 1 ≤ (g c).length) :
    ∀ s : PyStr, s.length ≤ (s.flatMap g).length := by
  intro s
  induction s with
  | nil => simp
  | cons a s' ih =>
    have := hg a
    simp only [List.flatMap_cons, List.length_append, List.length_cons]
    omega

/-- A per-character substitution that never drops a character and expands at
least one present character strictly lengthens the string. -/
theorem flatMap_length_lt (g : Nat → PyStr) (hg : ∀ c, 1 ≤ (g c).length) :
    ∀ (s : PyStr) (c : Nat), c ∈ s → 2 ≤ (g c).length →
      s.length < (s.flatMap g).length := by
  intro s
  induction s with
  | nil => intro c hc; cases hc
  | cons a s' ih =>
    intro c hc h2
    rcases List.mem_cons.mp hc with rfl | hmem
    · have := flatMap_length_le g hg s'
      simp only [List.flatMap_cons, List.length_append, List.length_cons]
      omega
    · have := ih c hmem h2
      have := hg a
      simp only [List.flatMap_cons, List.length_append, List.length_cons]
      omega

/-! ## Grammar table builder (grammar.py lines 112-117 and 267-274)

`LIT_GRAMMAR` and `RE_GRAMMAR` are assembled by a single forward pass over
ordered lists of `(name, template)` atoms: a pass-through name is stored
verbatim, every other template is formatted with `str.format` against the
table built so far, so placeholders can only refer to names declared
earlier.  The tables are modelled as ordered association lists (Python
dicts preserve insertion order and all keys here are distinct).  The
eleven `re_patterns` fragments are not part of the sources and enter as
parameters; they are pass-through, and `buildAux_isSome_eq` below shows
the success of the build does not depend on pass-through values. -/


/-- Lookup in an association list with string keys, modelling a Python dict
lookup for the grammar tables (whose keys are distinct). -/
def tblLookup (k : String) : List (String × String) → Option String
  | [] => none
  | (k2, v) :: rest => if k2 = k then some v else tblLookup k rest

/-- Membership of a name in a list of names, modelling the `in` checks of
grammar.py lines 114 and 271 (the pass-through name sets). -/
def nameElem (k : String) : List String → Bool
  | [] => false
  | k2 :: rest => if k2 = k then true else nameElem k rest

/-- Parse of one `str.format` replacement field after the opening brace:
the field name runs to the closing brace and must be a plain identifier
(the only field form the grammar templates use; Python rejects anything
a grammar template never contains, which is mapped to `none` here). -/
def fieldSplit (l : List Char) : Option (String × List Char) :=
  if (l.takeWhile (fun ch => ch ≠ '\x7d')).all (fun ch => ch.isAlpha || ch.isDigit || ch = '_') then
    match l.drop (l.takeWhile (fun ch => ch ≠ '\x7d')).length with
    | [] => none
    | _ :: rest3 => some (String.mk (l.takeWhile (fun ch => ch ≠ '\x7d')), rest3)
  else none

/-- The subset of Python `str.format` exercised by `v.format(**table)` in
grammar.py lines 117 and 274: `\x7bname\x7d` is replaced by the value of
`name` in `env`, doubled braces produce literal braces, and every use
Python would reject (a lone brace, an unterminated or unknown field)
yields `none`.  The `Nat` argument is recursion fuel; `pyFormat` supplies
`length + 1`, which is always sufficient. -/
def pyFormatAux (env : List (String × String)) : Nat → List Char → Option (List Char)
  | 0, _ => none
  | _ + 1, [] => some []
  | _ + 1, [c] =>
    if c = '\x7b' ∨ c = '\x7d' then none else some [c]
  | fuel + 1, c :: d :: rest2 =>
    if c = '\x7b' then
      if d = '\x7b' then (pyFormatAux env fuel rest2).map (fun t => '\x7b' :: t)
      else
        match fieldSplit (d :: rest2) with
        | none => none
        | some (n, rest3) =>
          match tblLookup n env with
          | none => none
          | some v => (pyFormatAux env fuel rest3).map (fun t => v.toList ++ t)
    else if c = '\x7d' then
      if d = '\x7d' then (pyFormatAux env fuel rest2).map (fun t => '\x7d' :: t) else none
    else
      (pyFormatAux env fuel (d :: rest2)).map (fun t => c :: t)

/-- `tmpl.format(**env)` for the template forms appearing in the grammar. -/
def pyFormat (tmpl : String) (env : List (String × String)) : Option String :=
  (pyFormatAux env (tmpl.toList.length + 1) tmpl.toList).map String.mk

/-- The grammar table build loop (grammar.py lines 112-117 and 269-274):
one forward pass over the raw atom list; a pass-through name is stored
verbatim, every other template is formatted against the table built so
far and the result is appended. -/
def buildAux (passNames : List String) :
    List (String × String) → List (String × String) → Option (List (String × String))
  | acc, [] => some acc
  | acc, (k, v) :: raws =>
    if nameElem k passNames then buildAux passNames (acc ++ [(k, v)]) raws
    else
      match pyFormat v acc with
      | none => none
      | some r => buildAux passNames (acc ++ [(k, r)]) raws

/-- Pointwise equality of the key sequences of two tables (the values may
differ).  Formatting success depends only on the keys. -/
def sameKeys : List (String × String) → List (String × String) → Prop
  | [], [] => True
  | (k1, _) :: l1, (k2, _) :: l2 => k1 = k2 ∧ sameKeys l1 l2
  | _, _ => False

theorem sameKeys_refl : ∀ l, sameKeys l l
  | [] => trivial
  | (_, _) :: l => ⟨rfl, sameKeys_refl l⟩

theorem sameKeys_append : ∀ {a b c d : List (String × String)},
    sameKeys a b → sameKeys c d → sameKeys (a ++ c) (b ++ d)
  | [], [], _, _, _, h2 => h2
  | (_, _) :: _, (_, _) :: _, _, _, h1, h2 =>
    ⟨h1.1, sameKeys_append h1.2 h2⟩

theorem tblLookup_isSome_eq (k : String) : ∀ {e1 e2 : List (String × String)},
    sameKeys e1 e2 → (tblLookup k e1).isSome = (tblLookup k e2).isSome
  | [], [], _ => rfl
  | (k1, v1) :: l1, (k2, v2) :: l2, h => by
    obtain ⟨hk, hs⟩ := h
    subst hk
    unfold tblLookup
    by_cases hc : k1 = k
    · rw [if_pos hc, if_pos hc]; rfl
    · rw [if_neg hc, if_neg hc]
      exact tblLookup_isSome_eq k hs

theorem pyFormatAux_isSome_eq {e1 e2 : List (String × String)} (he : sameKeys e1 e2) :
    ∀ fuel l, (pyFormatAux e1 fuel l).isSome = (pyFormatAux e2 fuel l).isSome := by
  intro fuel
  induction fuel with
  | zero => intro l; rfl
  | succ f ih =>
    intro l
    match l with
    | [] => rfl
    | [c] => rfl
    | c :: d :: rest2 =>
      unfold pyFormatAux
      by_cases hc : c = '\x7b'
      · rw [if_pos hc, if_pos hc]
        by_cases hd : d = '\x7b'
        · rw [if_pos hd, if_pos hd, Option.isSome_map', Option.isSome_map']
          exact ih rest2
        · rw [if_neg hd, if_neg hd]
          match fieldSplit (d :: rest2) with
          | none => rfl
          | some (n, rest3) =>
            have hl := tblLookup_isSome_eq n he
            match h1 : tblLookup n e1, h2 : tblLookup n e2 with
            | none, none => simp only [h1, h2]
            | none, some v2 => rw [h1, h2] at hl; simp at hl
            | some v1, none => rw [h1, h2] at hl; simp at hl
            | some v1, some v2 =>
              simp only [h1, h2, Option.isSome_map']
              exact ih rest3
      · rw [if_neg hc, if_neg hc]
        by_cases hc2 : c = '\x7d'
        · rw [if_pos hc2, if_pos hc2]
          by_cases hd : d = '\x7d'
          · rw [if_pos hd, if_pos hd, Option.isSome_map', Option.isSome_map']
            exact ih rest2
          · rw [if_neg hd, if_neg hd]
        · rw [if_neg hc2, if_neg hc2, Option.isSome_map', Option.isSome_map']
          exact ih (d :: rest2)

theorem pyFormat_isSome_eq {e1 e2 : List (String × String)} (he : sameKeys e1 e2)
    (tmpl : String) : (pyFormat tmpl e1).isSome = (pyFormat tmpl e2).isSome := by
  unfold pyFormat
  rw [Option.isSome_map', Option.isSome_map']
  exact pyFormatAux_isSome_eq he _ _

/-- Two raw atom lists with the same names, whose templates agree except
possibly at pass-through names. -/
def rawsRel (passNames : List String) : List (String × String) → List (String × String) → Prop
  | [], [] => True
  | (k1, v1) :: l1, (k2, v2) :: l2 =>
    k1 = k2 ∧ (nameElem k1 passNames = true ∨ v1 = v2) ∧ rawsRel passNames l1 l2
  | _, _ => False

theorem rawsRel_refl (passNames : List String) : ∀ l, rawsRel passNames l l
  | [] => trivial
  | (_, _) :: l => ⟨rfl, Or.inr rfl, rawsRel_refl passNames l⟩

theorem rawsRel_append {passNames : List String} : ∀ {a b c d : List (String × String)},
    rawsRel passNames a b → rawsRel passNames c d → rawsRel passNames (a ++ c) (b ++ d)
  | [], [], _, _, _, h2 => h2
  | (_, _) :: _, (_, _) :: _, _, _, h1, h2 =>
    ⟨h1.1, h1.2.1, rawsRel_append h1.2.2 h2⟩

theorem buildAux_isSome_eq (passNames : List String) :
    ∀ (raws1 raws2 acc1 acc2 : List (String × String)),
      rawsRel passNames raws1 raws2 → sameKeys acc1 acc2 →
      (buildAux passNames acc1 raws1).isSome = (buildAux passNames acc2 raws2).isSome := by
  intro raws1
  induction raws1 with
  | nil =>
    intro raws2 acc1 acc2 hr _
    match raws2 with
    | [] => rfl
    | (_, _) :: _ => exact absurd hr (by simp [rawsRel])
  | cons kv raws ih =>
    obtain ⟨k, v⟩ := kv
    intro raws2 acc1 acc2 hr ha
    match raws2 with
    | [] => exact absurd hr (by simp [rawsRel])
    | (k2, v2) :: raws2' =>
      obtain ⟨hk, hv, hrest⟩ := hr
      subst hk
      unfold buildAux
      by_cases hp : nameElem k passNames = true
      · rw [if_pos hp, if_pos hp]
        exact ih raws2' _ _ hrest (sameKeys_append ha ⟨rfl, trivial⟩)
      · rw [if_neg hp, if_neg hp]
        have hveq : v = v2 := hv.resolve_left hp
        subst hveq
        have hf := pyFormat_isSome_eq ha v
        match h1 : pyFormat v acc1, h2 : pyFormat v acc2 with
        | none, none => rfl
        | none, some r2 => rw [h1, h2] at hf; simp at hf
        | some r1, none => rw [h1, h2] at hf; simp at hf
        | some r1, some r2 =>
          exact ih raws2' _ _ hrest (sameKeys_append ha ⟨rfl, trivial⟩)

/-- `_RAW_LIT_GRAMMAR` before the `extend` (grammar.py lines 37-50). -/
def rawLitMain : List (String × String) :=
  [("tab", "\t"),
   ("space", " "),
   ("indent", "\x7btab\x7d\x7bspace\x7d"),
   ("newline", "\n"),
   ("line_terminator_ascii", "\n\x0b\x0c\r"),
   ("line_terminator_unicode", "\x7bline_terminator_ascii\x7d\x85\u2028\u2029"),
   ("whitespace", "\x7bindent\x7d\x7bnewline\x7d"),
   ("unicode_whitespace", "\t\n\x0b\x0c\r \x85\xa0\u1680\u2000\u2001\u2002\u2003\u2004\u2005\u2006\u2007\u2008\u2009\u200a\u2028\u2029\u202f\u205f\u3000"),
   ("bom", "\ufeff")]

/-- `_RAW_LIT_SPECIAL` (grammar.py lines 52-109). -/
def rawLitSpecial : List (String × String) :=
  [("comment_delim", "#"),
   ("assign_key_val", "="),
   ("open_noninline_list", "*"),
   ("start_inline_dict", "\x7b"),
   ("end_inline_dict", "\x7d"),
   ("start_inline_list", "["),
   ("end_inline_list", "]"),
   ("start_tag", "("),
   ("end_tag", ")"),
   ("end_tag_suffix", ">"),
   ("inline_element_separator", ","),
   ("block_prefix", "|"),
   ("block_suffix", "/"),
   ("escaped_string_singlequote_delim", "\x27"),
   ("escaped_string_doublequote_delim", "\""),
   ("literal_string_delim", "\x60"),
   ("path_separator", "."),
   ("alias_prefix", "$"),
   ("home_alias", "~"),
   ("self_alias", "_"),
   ("end_tag_with_suffix", "\x7bend_tag\x7d\x7bend_tag_suffix\x7d"),
   ("doc_comment_invalid_next_token", "\x7bblock_prefix\x7d\x7bcomment_delim\x7d\x7bassign_key_val\x7d\x7bend_inline_dict\x7d\x7bend_inline_list\x7d\x7bend_tag\x7d\x7binline_element_separator\x7d"),
   ("tag_invalid_next_token", "\x7bcomment_delim\x7d\x7bassign_key_val\x7d\x7bend_inline_dict\x7d\x7bend_inline_list\x7d\x7bend_tag\x7d\x7binline_element_separator\x7d"),
   ("number_or_number_unit_start", "0123456789+-")]

/-- `_RAW_RE_TYPE` (grammar.py lines 155-246); the triple-quoted templates
are transcribed after their `.replace` calls stripped spaces and newlines. -/
def rawReType : List (String × String) :=
  [("none_type", "none"),
   ("none_type_invalid_word", "[nN][oO][nN][eE]"),
   ("bool_true", "true"),
   ("bool_false", "false"),
   ("bool_invalid_word", "[tT][rR][uU][eE]|[fF][aA][lL][sS][eE]"),
   ("sign", "[+-]"),
   ("opt_sign_indent", "(?:\x7bsign\x7d\x7bindent\x7d*)?"),
   ("zero", "0"),
   ("nonzero_dec_digit", "[1-9]"),
   ("dec_digit", "[0-9]"),
   ("dec_digits_underscores", "\x7bdec_digit\x7d+(?:_\x7bdec_digit\x7d+)*"),
   ("lower_hex_digit", "[0-9a-f]"),
   ("lower_hex_digits_underscores", "\x7blower_hex_digit\x7d+(?:_\x7blower_hex_digit\x7d+)*"),
   ("upper_hex_digit", "[0-9A-F]"),
   ("upper_hex_digits_underscores", "\x7bupper_hex_digit\x7d+(?:_\x7bupper_hex_digit\x7d+)*"),
   ("oct_digit", "[0-7]"),
   ("oct_digits_underscores", "\x7boct_digit\x7d+(?:_\x7boct_digit\x7d+)*"),
   ("bin_digit", "[01]"),
   ("bin_digits_underscores", "\x7bbin_digit\x7d+(?:_\x7bbin_digit\x7d+)*"),
   ("dec_integer", "\x7bopt_sign_indent\x7d(?:\x7bzero\x7d|\x7bnonzero_dec_digit\x7d\x7bdec_digit\x7d*(?:_\x7bdec_digit\x7d+)*)"),
   ("hex_integer", "\x7bopt_sign_indent\x7d0x_?(?:\x7blower_hex_digits_underscores\x7d|\x7bupper_hex_digits_underscores\x7d)"),
   ("oct_integer", "\x7bopt_sign_indent\x7d0o_?\x7boct_digits_underscores\x7d"),
   ("bin_integer", "\x7bopt_sign_indent\x7d0b_?\x7bbin_digits_underscores\x7d"),
   ("integer", "\x7bdec_integer\x7d|\x7bhex_integer\x7d|\x7boct_integer\x7d|\x7bbin_integer\x7d"),
   ("dec_exponent", "[eE]\x7bsign\x7d?\x7bdec_digits_underscores\x7d"),
   ("decimal_point", "\\."),
   ("dec_float", "\x7bopt_sign_indent\x7d(?:\x7bzero\x7d|\x7bnonzero_dec_digit\x7d\x7bdec_digit\x7d*(?:_\x7bdec_digit\x7d+)*)(?:\x7bdecimal_point\x7d\x7bdec_digits_underscores\x7d(?:_?\x7bdec_exponent\x7d)?|_?\x7bdec_exponent\x7d)"),
   ("hex_exponent", "[pP]\x7bsign\x7d?\x7bdec_digits_underscores\x7d"),
   ("hex_float", "\x7bopt_sign_indent\x7d0x_?(?:\x7blower_hex_digits_underscores\x7d(?:\x7bdecimal_point\x7d\x7blower_hex_digits_underscores\x7d(?:_?\x7bhex_exponent\x7d)?|_?\x7bhex_exponent\x7d)|\x7bupper_hex_digits_underscores\x7d(?:\x7bdecimal_point\x7d\x7bupper_hex_digits_underscores\x7d(?:_?\x7bhex_exponent\x7d)?|_?\x7bhex_exponent\x7d))"),
   ("infinity", "\x7bopt_sign_indent\x7dinf"),
   ("not_a_number", "\x7bopt_sign_indent\x7dnan"),
   ("float_invalid_word", "\x7bopt_sign_indent\x7d(?:[iI][nN][fF]|[nN][aA][nN])"),
   ("float", "\x7bdec_float\x7d|\x7bhex_float\x7d|\x7binfinity\x7d|\x7bnot_a_number\x7d"),
   ("unquoted_start_ascii", "\x7bxid_start_ascii\x7d"),
   ("unquoted_start_below_u0590", "\x7bxid_start_below_u0590\x7d"),
   ("unquoted_start_unicode", "\x7bxid_start_less_fillers\x7d"),
   ("unquoted_continue_ascii", "\x7bxid_continue_ascii\x7d"),
   ("unquoted_continue_below_u0590", "\x7bxid_continue_below_u0590\x7d"),
   ("unquoted_continue_unicode", "\x7bxid_continue_less_fillers\x7d"),
   ("unquoted_key_ascii", "_*\x7bunquoted_start_ascii\x7d\x7bunquoted_continue_ascii\x7d*"),
   ("unquoted_key_below_u0590", "_*\x7bunquoted_start_below_u0590\x7d\x7bunquoted_continue_below_u0590\x7d*"),
   ("unquoted_key_unicode", "_*\x7bunquoted_start_unicode\x7d\x7bunquoted_continue_unicode\x7d*"),
   ("unquoted_string_ascii", "\x7bunquoted_key_ascii\x7d(?:\x7bspace\x7d\x7bunquoted_continue_ascii\x7d+)+"),
   ("unquoted_string_below_u0590", "\x7bunquoted_key_below_u0590\x7d(?:\x7bspace\x7d\x7bunquoted_continue_below_u0590\x7d+)+"),
   ("unquoted_string_unicode", "\x7bunquoted_key_unicode\x7d(?:\x7bspace\x7d\x7bunquoted_continue_unicode\x7d+)+"),
   ("si_mu_prefix", "(?:\xb5|\u03bc)"),
   ("unquoted_unit_ascii", "(?:[A-NP-WY-Za-km-wy-z][A-Za-z]+|[Xx][G-Zg-z][A-Za-z]*|[AC-DF-HJ-NP-WY-Zac-df-hj-km-np-rw-z]|%)"),
   ("unquoted_dec_number_unit_ascii", "(?:\x7bdec_integer\x7d|\x7bdec_float\x7d)\x7bunquoted_unit_ascii\x7d"),
   ("unquoted_dec_number_unit_below_u0590", "(?:\x7bdec_integer\x7d|\x7bdec_float\x7d)\x7bsi_mu_prefix\x7d?\x7bunquoted_unit_ascii\x7d"),
   ("unquoted_dec_number_unit_unicode", "\x7bunquoted_dec_number_unit_below_u0590\x7d"),
   ("key_path_element_ascii", "(?:\x7bunquoted_key_ascii\x7d|\x7bopen_noninline_list\x7d)"),
   ("key_path_element_below_u0590", "(?:\x7bunquoted_key_below_u0590\x7d|\x7bopen_noninline_list\x7d)"),
   ("key_path_element_unicode", "(?:\x7bunquoted_key_unicode\x7d|\x7bopen_noninline_list\x7d)"),
   ("key_path_ascii", "\x7bkey_path_element_ascii\x7d(?:\x7bpath_separator\x7d\x7bkey_path_element_ascii\x7d)+"),
   ("key_path_below_u0590", "\x7bkey_path_element_below_u0590\x7d(?:\x7bpath_separator\x7d\x7bkey_path_element_below_u0590\x7d)+"),
   ("key_path_unicode", "\x7bkey_path_element_unicode\x7d(?:\x7bpath_separator\x7d\x7bkey_path_element_unicode\x7d)+"),
   ("alias_path_ascii", "\x7balias_prefix\x7d(?:\x7bhome_alias\x7d|\x7bself_alias\x7d|\x7bunquoted_key_ascii\x7d)(?:\x7bpath_separator\x7d\x7bunquoted_key_ascii\x7d)+"),
   ("alias_path_below_u0590", "\x7balias_prefix\x7d(?:\x7bhome_alias\x7d|\x7bself_alias\x7d|\x7bunquoted_key_below_u0590\x7d)(?:\x7bpath_separator\x7d\x7bunquoted_key_below_u0590\x7d)+"),
   ("alias_path_unicode", "\x7balias_prefix\x7d(?:\x7bhome_alias\x7d|\x7bself_alias\x7d|\x7bunquoted_key_unicode\x7d)(?:\x7bpath_separator\x7d\x7bunquoted_key_unicode\x7d)+"),
   ("base16", "\x7blower_hex_digit\x7d+|\x7bupper_hex_digit\x7d+"),
   ("base64", "[A-Za-z0-9+/=]+")]

/-- `_RAW_RE_ESC` (grammar.py lines 250-264). -/
def rawReEsc : List (String × String) :=
  [("x_escape", "\\\\x(?:\x7blower_hex_digit\x7d\x7b\x7b2\x7d\x7d|\x7bupper_hex_digit\x7d\x7b\x7b2\x7d\x7d)"),
   ("u_escape", "\\\\u(?:\x7blower_hex_digit\x7d\x7b\x7b4\x7d\x7d|\x7bupper_hex_digit\x7d\x7b\x7b4\x7d\x7d)"),
   ("U_escape", "\\\\U(?:\x7blower_hex_digit\x7d\x7b\x7b8\x7d\x7d|\x7bupper_hex_digit\x7d\x7b\x7b8\x7d\x7d)"),
   ("ubrace_escape", "\\\\u\\\x7b\x7b(?:\x7blower_hex_digit\x7d\x7b\x7b1,6\x7d\x7d|\x7bupper_hex_digit\x7d\x7b\x7b1,6\x7d\x7d)\\\x7d\x7d"),
   ("bytes_escape", "\x7bx_escape\x7d|\\\\\x7bspace\x7d*\x7bnewline\x7d|\\\\.|\\\\"),
   ("unicode_escape", "\x7bx_escape\x7d|\x7bu_escape\x7d|\x7bU_escape\x7d|\x7bubrace_escape\x7d|\\\\\x7bspace\x7d*\x7bnewline\x7d|\\\\.|\\\\")]

/-- The names bound to `re_patterns` fragments (grammar.py lines 130-140). -/
def rePatternNames : List String :=
  ["xid_start_ascii", "xid_start_below_u0590", "xid_start_less_fillers", "xid_continue_ascii", "xid_continue_below_u0590", "xid_continue_less_fillers", "not_valid_ascii", "not_valid_below_u0590", "not_valid_unicode", "bidi_rtl", "private_use"]

/-- `_RAW_LIT_GRAMMAR` after `extend(_RAW_LIT_SPECIAL)` (line 110). -/
def rawLitGrammar : List (String × String) := rawLitMain ++ rawLitSpecial

/-- The literal-table pass-through names (grammar.py line 114). -/
def litPassNames : List String := ["start_inline_dict", "end_inline_dict"]

/-- A grammar table built from scratch by the forward pass. -/
def buildGrammarTable (passNames : List String) (raws : List (String × String)) :
    Option (List (String × String)) :=
  buildAux passNames [] raws

/-- The built literal table (grammar.py lines 112-117), as an ordered
association list; the build is total on these atoms (`litBuild_isSome`). -/
def LIT_GRAMMAR : List (String × String) :=
  (buildGrammarTable litPassNames rawLitGrammar).getD []

/-- `LIT_GRAMMAR[k]` for keys known to be present (all uses below are). -/
def litGet (k : String) : String := (tblLookup k LIT_GRAMMAR).getD ""

/-- The special set of Python 3.7+ `re.escape`: characters that receive a
preceding backslash. -/
def reSpecialChar (c : Char) : Bool :=
  c == '(' || c == ')' || c == '[' || c == ']' || c == '\x7b' || c == '\x7d' ||
  c == '?' || c == '*' || c == '+' || c == '-' || c == '|' || c == '^' ||
  c == '$' || c == '\\' || c == '.' || c == '&' || c == '~' || c == '#' ||
  c == ' ' || c == '\t' || c == '\n' || c == '\r' || c == '\x0b' || c == '\x0c'

/-- Python 3.7+ `re.escape`. -/
def pyReEscape (s : String) : String :=
  String.mk (s.toList.flatMap (fun c => if reSpecialChar c then ['\\', c] else [c]))

/-- `_RAW_RE_WS` (grammar.py lines 144-147); the bracket wrapping models
the `\x7b0\x7d`-style positional formatting applied there. -/
def rawReWs : List (String × String) :=
  [("space", pyReEscape (litGet "space")),
   ("indent", "[" ++ pyReEscape (litGet "indent") ++ "]"),
   ("newline", pyReEscape (litGet "newline")),
   ("whitespace", "[" ++ pyReEscape (litGet "whitespace") ++ "]")]

/-- The special-character regex atoms appended by the loop of grammar.py
lines 151-152: each `_RAW_LIT_SPECIAL` name maps to the re-escaped built
literal value. -/
def rawReSpecial : List (String × String) :=
  rawLitSpecial.map (fun kv => (kv.1, pyReEscape (litGet kv.1)))

/-- `_RE_PATTERNS` (grammar.py lines 130-140).  The `re_patterns` module is
not part of the sources, so the eleven fragments are parameters. -/
def rePatternAtoms (xsA xsB xsL xcA xcB xcL nvLitA nvLitB nvLitU bidi priv : String) :
    List (String × String) :=
  [("xid_start_ascii", xsA), ("xid_start_below_u0590", xsB),
   ("xid_start_less_fillers", xsL), ("xid_continue_ascii", xcA),
   ("xid_continue_below_u0590", xcB), ("xid_continue_less_fillers", xcL),
   ("not_valid_ascii", nvLitA), ("not_valid_below_u0590", nvLitB),
   ("not_valid_unicode", nvLitU), ("bidi_rtl", bidi), ("private_use", priv)]

/-- `_RAW_RE_GRAMMAR` after all `extend` calls (grammar.py lines 127-265). -/
def rawReGrammar (xsA xsB xsL xcA xcB xcL nvLitA nvLitB nvLitU bidi priv : String) :
    List (String × String) :=
  [("backslash", "\\\\")] ++
    rePatternAtoms xsA xsB xsL xcA xcB xcL nvLitA nvLitB nvLitU bidi priv ++
    rawReWs ++ rawReSpecial ++ rawReType ++ rawReEsc

/-- `_raw_key_not_formatted` (grammar.py line 267): the special names plus
the `re_patterns` names; the union of sets is modelled as concatenation,
which has the same membership. -/
def rePassNames : List String := rawLitSpecial.map Prod.fst ++ rePatternNames

/-- Specification predicate, following the claim's wording rather than the
loop: the result table lists exactly the declared atoms, in declaration
order; an entry whose name is pass-through holds its template verbatim;
every other entry holds its template with each placeholder replaced by the
already-resolved value of a name defined strictly earlier (formatting the
template against the strictly earlier entries succeeds and produces the
stored value). -/
def forwardResolved (passNames : List String) :
    List (String × String) → List (String × String) → List (String × String) → Prop
  | _, [], res => res = []
  | _, _ :: _, [] => False
  | prior, (k, v) :: raws, (k2, r) :: res =>
    k2 = k ∧ (if nameElem k passNames then r = v else pyFormat v prior = some r) ∧
    forwardResolved passNames (prior ++ [(k, r)]) raws res

/-- Whatever table the build loop produces satisfies the forward-pass
resolution specification. -/
theorem buildAux_forwardResolved (passNames : List String) :
    ∀ (raws acc m : List (String × String)),
      buildAux passNames acc raws = some m →
      ∃ res, m = acc ++ res ∧ forwardResolved passNames acc raws res := by
  intro raws
  induction raws with
  | nil =>
    intro acc m h
    have hm : acc = m := by simpa [buildAux] using h
    exact ⟨[], by simp [hm], rfl⟩
  | cons kv raws ih =>
    obtain ⟨k, v⟩ := kv
    intro acc m h
    unfold buildAux at h
    by_cases hp : nameElem k passNames = true
    · rw [if_pos hp] at h
      obtain ⟨res, hm, hfr⟩ := ih (acc ++ [(k, v)]) m h
      exact ⟨(k, v) :: res, by simp [hm], rfl, by rw [if_pos hp], hfr⟩
    · rw [if_neg hp] at h
      cases hfmt : pyFormat v acc with
      | none => rw [hfmt] at h; exact absurd h (by simp)
      | some r =>
        rw [hfmt] at h
        obtain ⟨res, hm, hfr⟩ := ih (acc ++ [(k, r)]) m h
        exact ⟨(k, r) :: res, by simp [hm], rfl, by rw [if_neg hp]; exact hfmt, hfr⟩

theorem rePatternAtoms_rel (a b c d e f g h i j k a2 b2 c2 d2 e2 f2 g2 h2 i2 j2 k2 : String) :
    rawsRel rePassNames (rePatternAtoms a b c d e f g h i j k)
      (rePatternAtoms a2 b2 c2 d2 e2 f2 g2 h2 i2 j2 k2) :=
  ⟨rfl, Or.inl (by decide), rfl, Or.inl (by decide), rfl, Or.inl (by decide),
   rfl, Or.inl (by decide), rfl, Or.inl (by decide), rfl, Or.inl (by decide),
   rfl, Or.inl (by decide), rfl, Or.inl (by decide), rfl, Or.inl (by decide),
   rfl, Or.inl (by decide), rfl, Or.inl (by decide), trivial⟩

theorem rawReGrammar_rel (a b c d e f g h i j k a2 b2 c2 d2 e2 f2 g2 h2 i2 j2 k2 : String) :
    rawsRel rePassNames (rawReGrammar a b c d e f g h i j k)
      (rawReGrammar a2 b2 c2 d2 e2 f2 g2 h2 i2 j2 k2) :=
  rawsRel_append (rawsRel_append (rawsRel_append (rawsRel_append
    (rawsRel_append (rawsRel_refl _ _)
      (rePatternAtoms_rel a b c d e f g h i j k a2 b2 c2 d2 e2 f2 g2 h2 i2 j2 k2))
    (rawsRel_refl _ _)) (rawsRel_refl _ _)) (rawsRel_refl _ _)) (rawsRel_refl _ _)

set_option maxRecDepth 100000 in
/-- The literal-table build succeeds on the declared atoms. -/
theorem litBuild_isSome : (buildGrammarTable litPassNames rawLitGrammar).isSome = true := by
  decide

set_option maxRecDepth 100000 in
/-- The regex-table build succeeds; by `buildAux_isSome_eq` success does
not depend on the pass-through values, checked here at empty fragments. -/
theorem reBuildBase_isSome : (buildGrammarTable rePassNames
    (rawReGrammar "" "" "" "" "" "" "" "" "" "" "")).isSome = true := by
  decide

/-! ## Claim theorems -/

/-- Claim C1 (code bug): the claim says construction succeeds for every
strictly boolean flag combination, producing a complete instance with the
256-entry byte escape cache overlaid with the ASCII short escapes.  In the
code, line 87 iterates `grammar.SHORT_BACKSLASH_ESCAPES` without `.items()`,
so the `for k, v in ...` comprehension tuple-unpacks each one-character key
and every construction raises `ValueError` after the flag check; an int flag
equal to `1` also passes the `in (True, False)` check.  This theorem
evaluates the constructor at the failing inputs. -/
theorem C1_construction_always_raises :
    (∀ a b c : Bool, Escape_init (.pybool a) (.pybool b) (.pybool c) = .error .valueError) ∧
      Escape_init (.pyint 1) (.pybool true) (.pybool true) = .error .valueError ∧
      Escape_init .pyother (.pybool true) (.pybool true) = .error .typeError := by
  refine ⟨?_, by decide, by decide⟩
  intro a b c
  cases a <;> cases b <;> cases c <;> decide

/-- Claim C2: for every configuration, delimiter, `escape_all` and `inline`
setting, and every string of code points at most `0x10FFFF` with no unpaired
surrogates, unescaping (default newline, fresh instance) the output of
escaping reproduces the string exactly.  The invalid-literal classes are
parameters (`re_patterns` is external); the result holds for every choice. -/
theorem C2_escape_unescape_roundtrip (nvU nvA : Nat → Bool)
    (onlyAscii braceEscapes xEscapes all inline : Bool) (delim : PyStr)
    (hdelim : delim = [39] ∨ delim = [34]) (s : PyStr)
    (hs : ∀ c ∈ s, c ≤ 1114111 ∧ ¬(55296 ≤ c ∧ c ≤ 57343)) :
    ∃ t, escapeUnicode onlyAscii braceEscapes xEscapes nvU nvA s delim all inline = .ok t ∧
      pyUnescapeUnicode t = .ok s := by
  have hval : ∀ c ∈ s, c ≤ 1114111 := fun c hc => (hs c hc).1
  refine ⟨_, escapeUnicode_ok nvU nvA onlyAscii braceEscapes xEscapes all inline s delim hdelim,
    ?_⟩
  unfold pyUnescapeUnicode
  apply unesc_escape_flatMap braceEscapes xEscapes s hval _ _ _ (le_refl _)
  intro c _
  cases all
  · by_cases hneed : needEscapeChar (if onlyAscii then nvA else nvU)
        (if delim == [39] then 39 else 34) inline c = true
    · refine Or.inl ?_
      rw [if_neg (by simp : ¬ (false = true)), if_pos hneed]
    · refine Or.inr ⟨?_, fun hc92 => ?_⟩
      · rw [if_neg (by simp : ¬ (false = true)), if_neg hneed]
      · subst hc92
        simp [needEscapeChar] at hneed
  · exact Or.inl (by rw [if_pos rfl])

/-- Witness for C2 at a concrete configuration and input. -/
theorem C2_escape_unescape_roundtrip_witness :
    ∃ t, escapeUnicode false true true (fun _ => false) (fun _ => false)
        [105, 116, 39, 115] [39] false false = .ok t ∧
      pyUnescapeUnicode t = .ok [105, 116, 39, 115] :=
  C2_escape_unescape_roundtrip (fun _ => false) (fun _ => false) false true true false false
    [39] (Or.inl rfl) [105, 116, 39, 115] (by decide)

/-- Claim C10: both text and byte escaping raise `TypeError` whenever the
delimiter is anything other than the one-character single- or double-quote
string (escape.py lines 172-173 and 198-199), before any scanning. -/
theorem C10_delim_check_type_error (nvU nvA : Nat → Bool)
    (onlyAscii braceEscapes xEscapes all inline : Bool) (s b delim : PyStr)
    (h1 : delim ≠ [39]) (h2 : delim ≠ [34]) :
    escapeUnicode onlyAscii braceEscapes xEscapes nvU nvA s delim all inline
        = .error .typeError ∧
      escapeBytes nvA b delim inline = .error .typeError := by
  have hcond : (!(delim == [39]) && !(delim == [34])) = true := by
    simp [h1, h2]
  constructor
  · unfold escapeUnicode
    rw [hcond]
    rfl
  · unfold escapeBytes
    rw [hcond]
    rfl

/-- Witness for C10 with the letter `a` as delimiter. -/
theorem C10_delim_check_type_error_witness :
    escapeUnicode false true true (fun _ => false) (fun _ => false)
        [104, 105] [97] false false = .error .typeError ∧
      escapeBytes (fun _ => false) [104, 105] [97] false = .error .typeError :=
  C10_delim_check_type_error (fun _ => false) (fun _ => false) false true true false false
    [104, 105] [104, 105] [97] (by decide) (by decide)

/-- Claim C5, amended: with `escape_all=true`, a second pass substitutes
every character of the first pass's output through the escape dict — in
particular every backslash the first pass produced is re-escaped, since the
dict maps the backslash to `\\`.  The `escape_all=false` half of the claim
is amended: a string is returned unchanged if and only if it contains no
character the scan escapes (no backslash, no matching delimiter, no newline
when `inline`, no invalid literal); and whenever the input contains a
character the scan escapes, the first pass output contains a backslash and
is therefore never a fixed point of a second pass. -/
theorem C5_escape_all_reescapes_and_literal_stability (nvU nvA : Nat → Bool)
    (onlyAscii braceEscapes xEscapes inline : Bool) (delim : PyStr)
    (hdelim : delim = [39] ∨ delim = [34]) :
    (∀ s : PyStr, ∃ t,
        escapeUnicode onlyAscii braceEscapes xEscapes nvU nvA s delim true inline = .ok t ∧
        escapeUnicode onlyAscii braceEscapes xEscapes nvU nvA t delim true inline
          = .ok (t.flatMap (escapeUnicodeDict braceEscapes xEscapes)) ∧
        escapeUnicodeDict braceEscapes xEscapes 92 = [92, 92]) ∧
    (∀ s : PyStr,
        escapeUnicode onlyAscii braceEscapes xEscapes nvU nvA s delim false inline = .ok s ↔
        ∀ c ∈ s, needEscapeChar (if onlyAscii then nvA else nvU)
          (if delim == [39] then 39 else 34) inline c = false) ∧
    (∀ s t : PyStr,
        (∃ c ∈ s, needEscapeChar (if onlyAscii then nvA else nvU)
          (if delim == [39] then 39 else 34) inline c = true) →
        escapeUnicode onlyAscii braceEscapes xEscapes nvU nvA s delim false inline = .ok t →
        escapeUnicode onlyAscii braceEscapes xEscapes nvU nvA t delim false inline ≠ .ok t) := by
  have hok : ∀ u : PyStr,
      escapeUnicode onlyAscii braceEscapes xEscapes nvU nvA u delim false inline
        = .ok (u.flatMap fun c =>
            if needEscapeChar (if onlyAscii then nvA else nvU)
                (if delim == [39] then 39 else 34) inline c
              then escapeUnicodeDict braceEscapes xEscapes c else [c]) := by
    intro u
    rw [escapeUnicode_ok nvU nvA onlyAscii braceEscapes xEscapes false inline u delim hdelim]
    simp only [Bool.false_eq_true, if_false]
  have hg1 : ∀ c, 1 ≤ ((fun c =>
      if needEscapeChar (if onlyAscii then nvA else nvU)
          (if delim == [39] then 39 else 34) inline c
        then escapeUnicodeDict braceEscapes xEscapes c else [c]) c).length := by
    intro c
    by_cases hci : needEscapeChar (if onlyAscii then nvA else nvU)
        (if delim == [39] then 39 else 34) inline c = true
    · simp only [if_pos hci]
      exact le_trans (by omega) (escapeUnicodeDict_two_le braceEscapes xEscapes c)
    · simp only [if_neg hci, List.length_singleton, le_refl]
  have hiff : ∀ s : PyStr,
      escapeUnicode onlyAscii braceEscapes xEscapes nvU nvA s delim false inline = .ok s ↔
      ∀ c ∈ s, needEscapeChar (if onlyAscii then nvA else nvU)
        (if delim == [39] then 39 else 34) inline c = false := by
    intro s
    rw [hok s]
    constructor
    · intro h
      have hflat : (s.flatMap fun c =>
          if needEscapeChar (if onlyAscii then nvA else nvU)
              (if delim == [39] then 39 else 34) inline c
            then escapeUnicodeDict braceEscapes xEscapes c else [c]) = s := by
        injection h
      by_contra hnot
      push_neg at hnot
      obtain ⟨c, hc, hne⟩ := hnot
      have hneed : needEscapeChar (if onlyAscii then nvA else nvU)
          (if delim == [39] then 39 else 34) inline c = true := by
        cases hx : needEscapeChar (if onlyAscii then nvA else nvU)
            (if delim == [39] then 39 else 34) inline c
        · exact absurd hx hne
        · rfl
      have hlt := flatMap_length_lt _ hg1 s c hc
        (by simp only [if_pos hneed]
            exact escapeUnicodeDict_two_le braceEscapes xEscapes c)
      rw [hflat] at hlt
      omega
    · intro hall
      congr 1
      apply flatMap_id_of_singleton
      intro c hc
      rw [if_neg (by rw [hall c hc]; exact Bool.false_ne_true)]
  refine ⟨?_, hiff, ?_⟩
  · intro s
    refine ⟨s.flatMap (escapeUnicodeDict braceEscapes xEscapes), ?_, ?_, rfl⟩
    · rw [escapeUnicode_ok nvU nvA onlyAscii braceEscapes xEscapes true inline s delim hdelim]
      simp
    · rw [escapeUnicode_ok nvU nvA onlyAscii braceEscapes xEscapes true inline _ delim hdelim]
      simp
  · intro s t hex hst heq
    obtain ⟨c, hc, hneed⟩ := hex
    have ht : t = s.flatMap fun c =>
        if needEscapeChar (if onlyAscii then nvA else nvU)
            (if delim == [39] then 39 else 34) inline c
          then escapeUnicodeDict braceEscapes xEscapes c else [c] := by
      rw [hok s] at hst
      injection hst with h
      exact h.symm
    have h92 : (92 : Nat) ∈ t := by
      rw [ht]
      exact List.mem_flatMap.mpr ⟨c, hc, by
        simp only [if_pos hneed]
        exact escapeUnicodeDict_mem92 braceEscapes xEscapes c⟩
    have h92f := (hiff t).mp heq 92 h92
    simp [needEscapeChar] at h92f

/-- Witness for C5 at a concrete configuration, exercising all three parts:
the `escape_all` re-substitution, both directions of the stability
biconditional, and the non-fixed-point conclusion at the output `\'` of a
first pass over `'`. -/
theorem C5_escape_all_reescapes_and_literal_stability_witness :
    (∃ t, escapeUnicode false true true NOT_VALID_LITERAL_model NOT_VALID_LITERAL_ASCII_model
        [97, 92] [39] true false = .ok t ∧
      escapeUnicode false true true NOT_VALID_LITERAL_model NOT_VALID_LITERAL_ASCII_model
          t [39] true false
        = .ok (t.flatMap (escapeUnicodeDict true true)) ∧
      escapeUnicodeDict true true 92 = [92, 92]) ∧
    escapeUnicode false true true NOT_VALID_LITERAL_model NOT_VALID_LITERAL_ASCII_model
        [97, 98] [39] false false = .ok [97, 98] ∧
    escapeUnicode false true true NOT_VALID_LITERAL_model NOT_VALID_LITERAL_ASCII_model
        [92, 39] [39] false false ≠ .ok [92, 39] := by
  obtain ⟨h1, h2, h3⟩ := C5_escape_all_reescapes_and_literal_stability NOT_VALID_LITERAL_model
    NOT_VALID_LITERAL_ASCII_model false true true false [39] (Or.inl rfl)
  refine ⟨h1 [97, 92], (h2 [97, 98]).mpr (by decide), ?_⟩
  exact h3 [39] [92, 39] (by decide) (by decide)

/-- Counterexample for claim C5 as stated: with the default configuration
and single-quote delimiter, escaping the one-character string `'` with
`escape_all=false` yields `\'`, and a second `escape_all=false` pass over
that output yields `\\\'`, not the same string — so first-pass output is not
in general a fixed point of a second pass. -/
theorem C5_fixed_point_counterexample :
    escapeUnicode false true true NOT_VALID_LITERAL_model NOT_VALID_LITERAL_ASCII_model
        [39] [39] false false = .ok [92, 39] ∧
    escapeUnicode false true true NOT_VALID_LITERAL_model NOT_VALID_LITERAL_ASCII_model
        [92, 39] [39] false false = .ok [92, 92, 92, 39] ∧
    ([92, 92, 92, 39] : PyStr) ≠ ([92, 39] : PyStr) := by
  decide

/-- Claim C6: the escaping functions follow the width table.  Concretely,
`_escape_unicode_char_xuU` sends `0x41` to `\x41` and `0x1F600` to
`\U0001f600`, while `_escape_unicode_char_xubrace` sends `0x1F600` to the
brace escape with digits `1f600`; in general the fixed-width forms carry
lower-case hex digits zero-padded to exactly 2, 4 or 8 digits whose value is
the code point, and the brace form carries the minimum number of lower-case
hex digits (at most 6, minimal among all widths that can hold the value). -/
theorem C6_escape_width_selection :
    escUniCharXuU 65 = [92, 120, 52, 49] ∧
    escUniCharXuU 128512 = [92, 85, 48, 48, 48, 49, 102, 54, 48, 48] ∧
    escUniCharXubrace 128512 = [92, 117, 123, 49, 102, 54, 48, 48, 125] ∧
    (∀ c : Nat, c < 256 →
      ∃ ds, escUniCharXuU c = [92, 120] ++ ds ∧ escUniCharXubrace c = [92, 120] ++ ds ∧
        ds.length = 2 ∧ (∀ d ∈ ds, lowHexD d = true) ∧ hexListVal ds = c) ∧
    (∀ c : Nat, 256 ≤ c → c < 65536 →
      ∃ ds, escUniCharXuU c = [92, 117] ++ ds ∧ escUniCharUU c = [92, 117] ++ ds ∧
        ds.length = 4 ∧ (∀ d ∈ ds, lowHexD d = true) ∧ hexListVal ds = c) ∧
    (∀ c : Nat, 65536 ≤ c → c ≤ 1114111 →
      ∃ ds, escUniCharXuU c = [92, 85] ++ ds ∧ escUniCharUU c = [92, 85] ++ ds ∧
        ds.length = 8 ∧ (∀ d ∈ ds, lowHexD d = true) ∧ hexListVal ds = c) ∧
    (∀ c : Nat, c ≤ 1114111 →
      ∃ ds, escUniCharUbrace c = [92, 117, 123] ++ ds ++ [125] ∧
        (256 ≤ c → escUniCharXubrace c = [92, 117, 123] ++ ds ++ [125]) ∧
        (∀ d ∈ ds, lowHexD d = true) ∧ hexListVal ds = c ∧
        1 ≤ ds.length ∧ ds.length ≤ 6 ∧ c < 16 ^ ds.length ∧
        (∀ k, 1 ≤ k → c < 16 ^ k → ds.length ≤ k)) := by
  refine ⟨by decide, by decide, by decide, ?_, ?_, ?_, ?_⟩
  · intro c hc
    refine ⟨padHex 2 c, ?_, ?_, padHex_len (minHex_len (by norm_num) (by norm_num; omega)),
      fun d hd => padHex_low hd, padHex_val 2 c⟩
    · unfold escUniCharXuU
      rw [if_pos hc]
    · unfold escUniCharXubrace
      rw [if_pos hc]
  · intro c hc1 hc2
    refine ⟨padHex 4 c, ?_, ?_, padHex_len (minHex_len (by norm_num) (by norm_num; omega)),
      fun d hd => padHex_low hd, padHex_val 4 c⟩
    · unfold escUniCharXuU
      rw [if_neg (by omega), if_pos hc2]
    · unfold escUniCharUU
      rw [if_pos hc2]
  · intro c hc1 hc2
    refine ⟨padHex 8 c, ?_, ?_, padHex_len (minHex_len (by norm_num) (by norm_num; omega)),
      fun d hd => padHex_low hd, padHex_val 8 c⟩
    · unfold escUniCharXuU
      rw [if_neg (by omega), if_neg (by omega)]
    · unfold escUniCharUU
      rw [if_neg (by omega)]
  · intro c hc
    refine ⟨minHex c, rfl, ?_, fun d hd => minHex_low hd, minHex_val c,
      List.length_pos.mpr (minHex_ne_nil c), minHex_len (by norm_num) (by norm_num; omega),
      minHex_lt c, fun k hk1 hk2 => minHex_len hk1 hk2⟩
    intro hc256
    unfold escUniCharXubrace
    rw [if_neg (by omega)]

/-- Witness for C6 at concrete code points. -/
theorem C6_escape_width_selection_witness :
    ∃ ds, escUniCharUbrace 5 = [92, 117, 123] ++ ds ++ [125] ∧
      (256 ≤ 5 → escUniCharXubrace 5 = [92, 117, 123] ++ ds ++ [125]) ∧
      (∀ d ∈ ds, lowHexD d = true) ∧ hexListVal ds = 5 ∧
      1 ≤ ds.length ∧ ds.length ≤ 6 ∧ 5 < 16 ^ ds.length ∧
      (∀ k, 1 ≤ k → 5 < 16 ^ k → ds.length ≤ k) :=
  C6_escape_width_selection.2.2.2.2.2.2 5 (by decide)

/-- Claim C3, amended: an escape-like token that is not a recognized form
raises `UnknownEscapeError` carrying the raw token and a display form, and
scanning stops with no partial result (the error also swallows any input
after the offending token).  The display form is the token itself when the
offending character is printable (0x21-0x7E), and otherwise a placeholder
whose hex digits come from `'{0:0x}'` — minimal length with no zero padding,
so backslash + U+0007 displays as the five-character placeholder with a
single digit `7`, not as a four-digit `0007` form. -/
theorem C3_unknown_escape_error :
    (∀ c : Nat, c ≠ 10 → shortUnescape [92, c] = none →
      pyUnescapeUnicode [92, c] = .error ⟨[92, c],
        if 33 ≤ c ∧ c ≤ 126 then [92, c] else [92, 60, 85, 43] ++ minHex c ++ [62]⟩) ∧
    (∀ rest : PyStr,
      pyUnescapeUnicode (92 :: 113 :: rest) = .error ⟨[92, 113], [92, 113]⟩) ∧
    pyUnescapeUnicode [92, 7] = .error ⟨[92, 7], [92, 60, 85, 43, 55, 62]⟩ := by
  refine ⟨?_, ?_, by decide⟩
  · intro c h10 hshort
    have hm : matchEscAfterBS ([c] ++ ([] : PyStr)) = (92 :: [c], []) := by
      simpa using mbs_one h10
    have hd : decodeTokUnicode (92 :: [c]) = .error ⟨[92, c],
        if 33 ≤ c ∧ c ≤ 126 then [92, c] else [92, 60, 85, 43] ++ minHex c ++ [62]⟩ := by
      unfold decodeTokUnicode
      rw [hshort]
      have hval : (pyIntSixteen (pyStripCurly (([92, c] : PyStr).drop 2))).bind pyChr
          = none := rfl
      rw [hval]
      have hlast : ([92, c] : PyStr).getLast? = some c := rfl
      rw [if_neg (by simp [hlast, h10])]
      unfold unknownEscDisplay
      rw [hlast]
      rfl
    have hstep := unesc_step_err hm hd 2 (by norm_num)
    simpa [pyUnescapeUnicode] using hstep
  · intro rest
    have hm : matchEscAfterBS ([113] ++ rest) = (92 :: [113], rest) :=
      mbs_other (by decide) (by decide) (by decide) (by decide) (by decide) rest
    have hd : decodeTokUnicode (92 :: [113]) = .error ⟨[92, 113], [92, 113]⟩ := by decide
    have hstep := unesc_step_err hm hd (92 :: 113 :: rest).length (by simp)
    simpa [pyUnescapeUnicode] using hstep

/-- Witness for C3 at the printable character `@` (0x40). -/
theorem C3_unknown_escape_error_witness :
    pyUnescapeUnicode [92, 64] = .error ⟨[92, 64],
      if 33 ≤ 64 ∧ 64 ≤ 126 then [92, 64] else [92, 60, 85, 43] ++ minHex 64 ++ [62]⟩ :=
  C3_unknown_escape_error.1 64 (by decide) (by decide)

/-- Counterexample for claim C3 as stated: the display form for backslash +
U+0007 uses the unpadded format `'{0:0x}'` (escape.py line 267), producing
the single-digit placeholder for `7` rather than the four-digit `0007` form
the claim states. -/
theorem C3_display_not_padded_counterexample :
    pyUnescapeUnicode [92, 7] = .error ⟨[92, 7], [92, 60, 85, 43, 55, 62]⟩ ∧
    ([92, 60, 85, 43, 55, 62] : PyStr) ≠ pstr "\\<U+0007>" := by
  constructor
  · decide
  · decide

/-- Claim C4: each numeric escape form recognized by the scanner (`\xHH`
with exactly 2 hex digits, `\uHHHH` with 4, `\UHHHHHHHH` with 8 — the value
being a code point — and the brace form with 1-6 digits), in upper or lower
case, decodes to the code point equal to the hex value of its digits; and a
digit string that does not fill the stated width exactly is not decoded as
that form — scanning instead fails on the bare `\x`/`\u` prefix. -/
theorem C4_numeric_escape_decoding :
    (∀ a b : Nat, ((lowHexD a && lowHexD b) || (upHexD a && upHexD b)) = true →
      pyUnescapeUnicode [92, 120, a, b] = .ok [hexListVal [a, b]]) ∧
    (∀ a b c d : Nat,
      ((lowHexD a && lowHexD b && lowHexD c && lowHexD d) ||
        (upHexD a && upHexD b && upHexD c && upHexD d)) = true →
      pyUnescapeUnicode [92, 117, a, b, c, d] = .ok [hexListVal [a, b, c, d]]) ∧
    (∀ a b c d e f g i : Nat,
      ((lowHexD a && lowHexD b && lowHexD c && lowHexD d &&
          lowHexD e && lowHexD f && lowHexD g && lowHexD i) ||
        (upHexD a && upHexD b && upHexD c && upHexD d &&
          upHexD e && upHexD f && upHexD g && upHexD i)) = true →
      hexListVal [a, b, c, d, e, f, g, i] ≤ 1114111 →
      pyUnescapeUnicode [92, 85, a, b, c, d, e, f, g, i]
        = .ok [hexListVal [a, b, c, d, e, f, g, i]]) ∧
    (∀ ds : PyStr, 1 ≤ ds.length → ds.length ≤ 6 →
      ((∀ c ∈ ds, lowHexD c = true) ∨ (∀ c ∈ ds, upHexD c = true)) →
      hexListVal ds ≤ 1114111 →
      pyUnescapeUnicode ([92, 117, 123] ++ ds ++ [125]) = .ok [hexListVal ds]) ∧
    (∀ a : Nat, (lowHexD a || upHexD a) = true →
      pyUnescapeUnicode [92, 120, a] = .error ⟨[92, 120], [92, 120]⟩) ∧
    (∀ a b c : Nat, (lowHexD a || upHexD a) = true → (lowHexD b || upHexD b) = true →
      (lowHexD c || upHexD c) = true →
      pyUnescapeUnicode [92, 117, a, b, c] = .error ⟨[92, 117], [92, 117]⟩) := by
  have hsome : ∀ {x : Nat}, (lowHexD x || upHexD x) = true → (hexDigitVal x).isSome := by
    intro x hx
    rcases Bool.or_eq_true_iff.mp hx with hx | hx
    · exact lowHexD_isSome hx
    · exact upHexD_isSome hx
  refine ⟨?_, ?_, ?_, ?_, ?_, ?_⟩
  · intro a b h
    have hiso : (hexDigitVal a).isSome ∧ (hexDigitVal b).isSome := by
      have h2 := h
      simp only [Bool.or_eq_true, Bool.and_eq_true] at h2
      rcases h2 with ⟨h1, h2⟩ | ⟨h1, h2⟩
      · exact ⟨lowHexD_isSome h1, lowHexD_isSome h2⟩
      · exact ⟨upHexD_isSome h1, upHexD_isSome h2⟩
    have hm : matchEscAfterBS ([120, a, b] ++ ([] : PyStr)) = (92 :: [120, a, b], []) := by
      simpa using mbs_x_any h []
    have hstep := unesc_step_tok hm (decodeTok_x hiso.1 hiso.2) 4 (by simp)
    simpa [pyUnescapeUnicode, unescRun_nil] using hstep
  · intro a b c d h
    have hiso : (hexDigitVal a).isSome ∧ (hexDigitVal b).isSome ∧
        (hexDigitVal c).isSome ∧ (hexDigitVal d).isSome := by
      rcases Bool.or_eq_true_iff.mp h with hL | hU
      · simp only [Bool.and_eq_true] at hL
        obtain ⟨⟨⟨h1, h2⟩, h3⟩, h4⟩ := hL
        exact ⟨lowHexD_isSome h1, lowHexD_isSome h2, lowHexD_isSome h3, lowHexD_isSome h4⟩
      · simp only [Bool.and_eq_true] at hU
        obtain ⟨⟨⟨h1, h2⟩, h3⟩, h4⟩ := hU
        exact ⟨upHexD_isSome h1, upHexD_isSome h2, upHexD_isSome h3, upHexD_isSome h4⟩
    have hm : matchEscAfterBS ([117, a, b, c, d] ++ ([] : PyStr))
        = (92 :: [117, a, b, c, d], []) := by
      simpa using mbs_u_any h []
    have hstep := unesc_step_tok hm
      (decodeTok_u hiso.1 hiso.2.1 hiso.2.2.1 hiso.2.2.2) 6 (by simp)
    simpa [pyUnescapeUnicode, unescRun_nil] using hstep
  · intro a b c d e f g i h hval
    have hiso : (hexDigitVal a).isSome ∧ (hexDigitVal b).isSome ∧
        (hexDigitVal c).isSome ∧ (hexDigitVal d).isSome ∧ (hexDigitVal e).isSome ∧
        (hexDigitVal f).isSome ∧ (hexDigitVal g).isSome ∧ (hexDigitVal i).isSome := by
      rcases Bool.or_eq_true_iff.mp h with hL | hU
      · simp only [Bool.and_eq_true] at hL
        obtain ⟨⟨⟨⟨⟨⟨⟨h1, h2⟩, h3⟩, h4⟩, h5⟩, h6⟩, h7⟩, h8⟩ := hL
        exact ⟨lowHexD_isSome h1, lowHexD_isSome h2, lowHexD_isSome h3, lowHexD_isSome h4,
          lowHexD_isSome h5, lowHexD_isSome h6, lowHexD_isSome h7, lowHexD_isSome h8⟩
      · simp only [Bool.and_eq_true] at hU
        obtain ⟨⟨⟨⟨⟨⟨⟨h1, h2⟩, h3⟩, h4⟩, h5⟩, h6⟩, h7⟩, h8⟩ := hU
        exact ⟨upHexD_isSome h1, upHexD_isSome h2, upHexD_isSome h3, upHexD_isSome h4,
          upHexD_isSome h5, upHexD_isSome h6, upHexD_isSome h7, upHexD_isSome h8⟩
    have hm : matchEscAfterBS ([85, a, b, c, d, e, f, g, i] ++ ([] : PyStr))
        = (92 :: [85, a, b, c, d, e, f, g, i], []) := by
      simpa using mbs_U_any h []
    have hstep := unesc_step_tok hm
      (decodeTok_U hiso.1 hiso.2.1 hiso.2.2.1 hiso.2.2.2.1 hiso.2.2.2.2.1
        hiso.2.2.2.2.2.1 hiso.2.2.2.2.2.2.1 hiso.2.2.2.2.2.2.2 hval) 10 (by simp)
    simpa [pyUnescapeUnicode, unescRun_nil] using hstep
  · intro ds h1 h6 hcls hval
    have hne : ds ≠ [] := List.ne_nil_of_length_pos (by omega)
    have hiso : ∀ c ∈ ds, (hexDigitVal c).isSome := by
      intro c hc
      rcases hcls with hcls | hcls
      · exact lowHexD_isSome (hcls c hc)
      · exact upHexD_isSome (hcls c hc)
    have hmben : matchEscAfterBS (117 :: 123 :: (ds ++ 125 :: ([] : PyStr)))
        = ([92, 117, 123] ++ ds ++ [125], []) := by
      rcases hcls with hcls | hcls
      · exact mbs_ubrace_low hcls h1 h6 []
      · exact mbs_ubrace_up hcls h1 h6 []
    have hm : matchEscAfterBS ((117 :: 123 :: (ds ++ [125])) ++ ([] : PyStr))
        = (92 :: (117 :: 123 :: (ds ++ [125])), []) := by
      simpa using hmben
    have hd : decodeTokUnicode (92 :: (117 :: 123 :: (ds ++ [125]))) = .ok [hexListVal ds] := by
      simpa using decodeTok_ubrace hne hiso hval
    have hstep := unesc_step_tok hm hd (ds.length + 4) (by simp)
    have hshape : ([92, 117, 123] ++ ds ++ [125] : PyStr)
        = 92 :: ((117 :: 123 :: (ds ++ [125])) ++ []) := by simp
    rw [pyUnescapeUnicode, hshape]
    rw [show (92 :: ((117 :: 123 :: (ds ++ [125])) ++ []) : PyStr).length
        = ds.length + 4 from by simp]
    rw [hstep]
    simp [unescRun_nil]
  · intro a _
    have hm : matchEscAfterBS ([120] ++ [a]) = (92 :: [120], [a]) := by
      show matchEscAfterBS (120 :: [a]) = (92 :: [120], [a])
      unfold matchEscAfterBS
      rw [show matchX (120 :: [a]) = none from rfl, matchU_ne (by decide),
        matchCapU_ne (by decide), matchUbrace_ne (by decide),
        matchCont_nospace (by decide) (by decide)]
      rfl
    have hd : decodeTokUnicode (92 :: [120]) = .error ⟨[92, 120], [92, 120]⟩ := by decide
    have hstep := unesc_step_err hm hd 3 (by norm_num)
    simpa [pyUnescapeUnicode] using hstep
  · intro a b c ha hb hc
    have ha123 : a ≠ 123 := by
      have := hsome ha
      rcases hexDigitVal_isSome_iff.mp this with h | h | h <;> omega
    have hm : matchEscAfterBS ([117] ++ [a, b, c]) = (92 :: [117], [a, b, c]) := by
      show matchEscAfterBS (117 :: [a, b, c]) = (92 :: [117], [a, b, c])
      unfold matchEscAfterBS
      rw [matchX_ne (by decide), show matchU (117 :: [a, b, c]) = none from rfl,
        matchCapU_ne (by decide), matchUbrace_nonbrace ha123,
        matchCont_nospace (by decide) (by decide)]
      rfl
    have hd : decodeTokUnicode (92 :: [117]) = .error ⟨[92, 117], [92, 117]⟩ := by decide
    have hstep := unesc_step_err hm hd 5 (by norm_num)
    simpa [pyUnescapeUnicode] using hstep

/-- Witness for C4: lower-case and upper-case instances of each clause. -/
theorem C4_numeric_escape_decoding_witness :
    pyUnescapeUnicode [92, 120, 97, 102] = .ok [hexListVal [97, 102]] ∧
    pyUnescapeUnicode [92, 120, 65, 70] = .ok [hexListVal [65, 70]] ∧
    pyUnescapeUnicode [92, 117, 48, 48, 52, 49] = .ok [hexListVal [48, 48, 52, 49]] ∧
    pyUnescapeUnicode [92, 85, 48, 48, 48, 49, 102, 54, 48, 48]
      = .ok [hexListVal [48, 48, 48, 49, 102, 54, 48, 48]] ∧
    pyUnescapeUnicode ([92, 117, 123] ++ [49, 70, 54, 48, 48] ++ [125])
      = .ok [hexListVal [49, 70, 54, 48, 48]] ∧
    pyUnescapeUnicode [92, 120, 52] = .error ⟨[92, 120], [92, 120]⟩ ∧
    pyUnescapeUnicode [92, 117, 49, 50, 51] = .error ⟨[92, 117], [92, 117]⟩ :=
  ⟨C4_numeric_escape_decoding.1 97 102 (by decide),
   C4_numeric_escape_decoding.1 65 70 (by decide),
   C4_numeric_escape_decoding.2.1 48 48 52 49 (by decide),
   C4_numeric_escape_decoding.2.2.1 48 48 48 49 102 54 48 48 (by decide) (by decide),
   C4_numeric_escape_decoding.2.2.2.1 [49, 70, 54, 48, 48] (by decide) (by decide)
     (Or.inr (by decide)) (by decide),
   C4_numeric_escape_decoding.2.2.2.2.1 52 (by decide),
   C4_numeric_escape_decoding.2.2.2.2.2 49 50 51 (by decide) (by decide) (by decide)⟩

/-- Claim C7, amended: a line-continuation token is a backslash, zero or
more space characters (0x20 only — a tab in the run is not matched as a
continuation and raises an unknown-escape error instead, see the
counterexample), and one newline; it unescapes to empty text, inserting no
character. -/
theorem C7_line_continuation (k : Nat) :
    pyUnescapeUnicode (92 :: (List.replicate k 32 ++ [10])) = .ok [] ∧
    pyUnescapeUnicode (97 :: 92 :: (List.replicate k 32 ++ 10 :: [32, 98]))
      = .ok [97, 32, 98] := by
  constructor
  · have hm : matchEscAfterBS ((List.replicate k 32 ++ [10]) ++ ([] : PyStr))
        = (92 :: (List.replicate k 32 ++ [10]), []) := by
      simpa using mbs_cont k []
    have hstep := unesc_step_tok hm (decodeTok_cont k) (k + 2) (by simp)
    rw [pyUnescapeUnicode, show (92 :: (List.replicate k 32 ++ [10]) : PyStr).length
        = k + 2 from by simp]
    rw [show (92 :: (List.replicate k 32 ++ [10]) : PyStr)
        = 92 :: ((List.replicate k 32 ++ [10]) ++ []) from by simp]
    rw [hstep]
    simp [unescRun_nil]
  · have hm : matchEscAfterBS ((List.replicate k 32 ++ [10]) ++ ([32, 98] : PyStr))
        = (92 :: (List.replicate k 32 ++ [10]), [32, 98]) := by
      have h := mbs_cont k [32, 98]
      simpa [List.append_assoc] using h
    have hstep := unesc_step_tok hm (decodeTok_cont k) (k + 4) (by simp)
    have hrest : unescRun (([32, 98] : PyStr).length) [32, 98] = .ok [32, 98] := by decide
    rw [pyUnescapeUnicode,
      show (97 :: 92 :: (List.replicate k 32 ++ 10 :: [32, 98]) : PyStr).length
        = k + 5 from by simp]
    rw [unescRun_ne (by decide) (k + 4)]
    rw [show (92 :: (List.replicate k 32 ++ 10 :: [32, 98]) : PyStr)
        = 92 :: ((List.replicate k 32 ++ [10]) ++ [32, 98]) from by simp]
    rw [hstep, hrest]
    rfl

/-- Counterexample for claim C7 as stated: the continuation run admits only
spaces (the compiled pattern is backslash, `<space>*`, newline), so a tab
between the backslash and the newline is not a continuation; the scanner
takes `\<TAB>` as an unknown escape and raises instead of producing empty
text. -/
theorem C7_tab_not_continuation_counterexample :
    pyUnescapeUnicode [92, 9, 10] = .error ⟨[92, 9], [92, 60, 85, 43, 57, 62]⟩ ∧
    pyUnescapeUnicode [92, 9, 10] ≠ .ok [] := by
  constructor
  · decide
  · decide

/-- Claim C8 (code bug): under Python 3 the line-229 update seeds the byte
unescape dict with `str` keys, which `bytes` regex tokens never equal, so a
short-escape byte token reaches `_unescape_byte` and raises
`UnknownEscapeError` instead of decoding; the `\xHH` entries of line 228
(and upper-case tokens through the factory) still decode to the byte with
that hex value. -/
theorem C8_bytes_short_escapes_raise :
    pyUnescapeBytes [92, 110] = .error ⟨[92, 110], [92, 110]⟩ ∧
    pyUnescapeBytes [92, 110] ≠ .ok [10] ∧
    pyUnescapeBytes [92, 120, 52, 49] = .ok [65] ∧
    pyUnescapeBytes [92, 120, 65, 70] = .ok [175] := by
  refine ⟨by decide, by decide, by decide, by decide⟩

set_option maxRecDepth 100000 in
set_option maxHeartbeats 2000000 in
/-- Claim C9: the grammar table builder resolves atoms in declaration order
in a single forward pass: every pass-through entry of the literal-value
table and of the regex-source table is stored verbatim equal to its
template, and every other entry equals its template with each placeholder
replaced by the already-resolved value of a name defined earlier in the
sequence.  Stated for the actual atom lists of grammar.py: both builds
succeed (for every choice of the external `re_patterns` fragments) and the
resulting tables satisfy `forwardResolved`. -/
theorem C9_grammar_tables_forward_pass
    (xsA xsB xsL xcA xcB xcL nvLitA nvLitB nvLitU bidi priv : String) :
    (∃ t, buildGrammarTable litPassNames rawLitGrammar = some t ∧
        forwardResolved litPassNames [] rawLitGrammar t) ∧
    (∃ t, buildGrammarTable rePassNames
            (rawReGrammar xsA xsB xsL xcA xcB xcL nvLitA nvLitB nvLitU bidi priv) = some t ∧
        forwardResolved rePassNames []
          (rawReGrammar xsA xsB xsL xcA xcB xcL nvLitA nvLitB nvLitU bidi priv) t) := by
  constructor
  · have h : (buildGrammarTable litPassNames rawLitGrammar).isSome = true := litBuild_isSome
    have hsome : buildGrammarTable litPassNames rawLitGrammar =
        some ((buildGrammarTable litPassNames rawLitGrammar).get h) :=
      (Option.some_get h).symm
    obtain ⟨res, hm, hfr⟩ :=
      buildAux_forwardResolved litPassNames rawLitGrammar []
        ((buildGrammarTable litPassNames rawLitGrammar).get h) hsome
    rw [List.nil_append] at hm
    rw [hm] at hsome
    exact ⟨res, hsome, hfr⟩
  · have hbase : (buildGrammarTable rePassNames
        (rawReGrammar "" "" "" "" "" "" "" "" "" "" "")).isSome = true := reBuildBase_isSome
    have h : (buildGrammarTable rePassNames
        (rawReGrammar xsA xsB xsL xcA xcB xcL nvLitA nvLitB nvLitU bidi priv)).isSome = true :=
      (buildAux_isSome_eq rePassNames _ _ [] []
        (rawReGrammar_rel xsA xsB xsL xcA xcB xcL nvLitA nvLitB nvLitU bidi priv
          "" "" "" "" "" "" "" "" "" "" "") trivial).trans hbase
    have hsome : buildGrammarTable rePassNames
        (rawReGrammar xsA xsB xsL xcA xcB xcL nvLitA nvLitB nvLitU bidi priv) =
        some ((buildGrammarTable rePassNames
          (rawReGrammar xsA xsB xsL xcA xcB xcL nvLitA nvLitB nvLitU bidi priv)).get h) :=
      (Option.some_get h).symm
    obtain ⟨res, hm, hfr⟩ :=
      buildAux_forwardResolved rePassNames
        (rawReGrammar xsA xsB xsL xcA xcB xcL nvLitA nvLitB nvLitU bidi priv) []
        ((buildGrammarTable rePassNames
          (rawReGrammar xsA xsB xsL xcA xcB xcL nvLitA nvLitB nvLitU bidi priv)).get h) hsome
    rw [List.nil_append] at hm
    rw [hm] at hsome
    exact ⟨res, hsome, hfr⟩

end BesponSpec
